import Mathlib

/-!
Verification of the configuration subsystem of `umi-build-dev`
(`src/packages/umi-build-dev/src/UserConfig.js`).

The JavaScript code manipulates JSON-like configuration objects.  We model
JavaScript values with the inductive type `JVal`; objects are ordered
association lists of string keys (JavaScript objects preserve insertion
order for string keys and never contain duplicate keys — duplicate
freedom appears as `nodupKeys` hypotheses below where a proof needs it).

Modelling conventions:
* a missing property reads as `JVal.null` (JavaScript `undefined` and
  `null` are conflated except where the distinction matters, namely the
  lodash `isEqual` namespace comparison, where a missing namespace is
  modelled as `Option.none`);
* property assignment (`o[k] = v`) keeps the position of an existing key
  and appends a fresh key, exactly as in JavaScript (`setKey`);
* object spread `{...a, ...b}` starts from an empty object and assigns
  the fields of `a` then of `b` (`spreadInto`);
* spreading a non-object contributes no fields.  (Spreading a JavaScript
  string contributes its character-index fields; configurations with
  string-valued `context`, string/array-valued `pages`, or non-object
  page entries are outside the modelled domain — on such inputs the real
  code either throws in strict mode or enumerates index keys — and every
  theorem that touches those code paths carries explicit object-shape
  hypotheses.)
-/

inductive JVal where
  | null : JVal
  | bool : Bool → JVal
  | num : Int → JVal
  | str : String → JVal
  | arr : List JVal → JVal
  | obj : List (String × JVal) → JVal

/-- Truthiness of a JavaScript value (`!!v`).  Objects and arrays are
always truthy; `null`/`undefined`, `false`, `0` and `""` are falsy. -/
def truthy : JVal → Bool
  | .null => false
  | .bool b => b
  | .num n => n != 0
  | .str s => s ≠ ""
  | .arr _ => true
  | .obj _ => true

/-- Read a property from an ordered field list (first match; real
JavaScript objects have no duplicate keys, so first match is the match). -/
def getKey : List (String × JVal) → String → Option JVal
  | [], _ => none
  | (k', v) :: rest, k => if k' = k then some v else getKey rest k

/-- Does the field list carry the key. -/
def hasKey (fs : List (String × JVal)) (k : String) : Bool :=
  (getKey fs k).isSome

/-- JavaScript property assignment `o[k] = v`: an existing key keeps its
position, a fresh key is appended. -/
def setKey (fs : List (String × JVal)) (k : String) (v : JVal) : List (String × JVal) :=
  if hasKey fs k then fs.map (fun p => if p.1 = k then (k, v) else p) else fs ++ [(k, v)]

/-- Assign every field of `b` into `a` in order; this is the effect of
`{...a?, ...b}` once `a` is an already-built object. -/
def spreadInto (a b : List (String × JVal)) : List (String × JVal) :=
  b.foldl (fun acc p => setKey acc p.1 p.2) a

/-- Fields contributed by spreading a value: objects contribute their
fields, everything else contributes none (see the domain note above). -/
def spreadFields : JVal → List (String × JVal)
  | .obj fs => fs
  | _ => []

/-- The object literal `{...a, ...b}` for two spread operands. -/
def objLit2 (a b : List (String × JVal)) : List (String × JVal) :=
  spreadInto (spreadInto [] a) b

/-- Key list of an object in order. -/
def keysOf (fs : List (String × JVal)) : List String :=
  fs.map Prod.fst

/-- Duplicate-freedom of the key list — the representation invariant of a
real JavaScript object. -/
def nodupKeys : List (String × JVal) → Bool
  | [] => true
  | (k, _) :: rest => !hasKey rest k && nodupKeys rest

/-- The property read `config.default || config` at the top of
`normalizeConfig` (UserConfig.js line 14). -/
def extractDefault (c : JVal) : JVal :=
  match c with
  | .obj fs =>
    match getKey fs "default" with
    | some d => if truthy d then d else .obj fs
    | none => .obj fs
  | c' => c'

/-- Per-page context merge `page.context = {...config.context, ...page.context}`
(UserConfig.js lines 18-22); a non-object page entry is outside the
modelled domain (strict-mode JavaScript would throw on the assignment). -/
def mergeContextInto (cv : JVal) (p : String × JVal) : String × JVal :=
  match p.2 with
  | .obj pfs =>
    (p.1, .obj (setKey pfs "context"
      (.obj (objLit2 (spreadFields cv) (spreadFields ((getKey pfs "context").getD .null))))))
  | _ => p

/-- The context-propagation step of `normalizeConfig` (lines 16-24):
when both `config.context` and `config.pages` are truthy, every page
entry receives the top-level context merged underneath its own. -/
def contextStep (fs : List (String × JVal)) : List (String × JVal) :=
  match getKey fs "context", getKey fs "pages" with
  | some cv, some pv =>
    if truthy cv && truthy pv then
      match pv with
      | .obj ps => setKey fs "pages" (.obj (ps.map (mergeContextInto cv)))
      | _ => fs
    else fs
  | _, _ => fs

/-- The guard `!!(config.exportStatic && typeof config.exportStatic ===
'object' && config.exportStatic.htmlSuffix)` (lines 30-34).  An array
`exportStatic` is `typeof 'object'` but carries no `htmlSuffix` field. -/
def htmlSuffixOf (fs : List (String × JVal)) : Bool :=
  match getKey fs "exportStatic" with
  | some (.obj efs) => truthy ((getKey efs "htmlSuffix").getD .null)
  | _ => false

/-- JavaScript `key.slice(-1) === '/'`. -/
def endsSlash (k : String) : Bool := k.data.getLast? == some '/'

/-- JavaScript `key.slice(-5) === '.html'`. -/
def endsHtml (k : String) : Bool := List.isSuffixOf ".html".data k.data

/-- JavaScript `key.charAt(0) === '/'`. -/
def startsSlash (k : String) : Bool := k.data.head? == some '/'

/-- Lines 37-43: append `.html` when `htmlSuffix` is in force and the
key ends in neither `/` nor `.html`. -/
def suffixStep (htmlSuffix : Bool) (k : String) : String :=
  if htmlSuffix && !endsSlash k && !endsHtml k then k ++ ".html" else k

/-- Lines 44-46: prepend `/` when the key does not already start with it. -/
def slashStep (k : String) : String :=
  if startsSlash k then k else "/" ++ k

/-- The per-key rewrite of the pages patch (lines 36-46). -/
def rewriteKey (htmlSuffix : Bool) (k : String) : String :=
  slashStep (suffixStep htmlSuffix k)

/-- The `reduce` of lines 35-49: rebuild the pages object with rewritten
keys, starting from `{}`; a later entry whose rewritten key collides
with an earlier one overwrites it in place. -/
def rebuildPages (htmlSuffix : Bool) (ps : List (String × JVal)) : List (String × JVal) :=
  ps.foldl (fun memo p => setKey memo (rewriteKey htmlSuffix p.1) p.2) []

/-- The pages-key normalization step of `normalizeConfig` (lines 29-50). -/
def pagesStep (fs : List (String × JVal)) : List (String × JVal) :=
  match getKey fs "pages" with
  | some pv =>
    if truthy pv then
      let ps := spreadFields pv
      setKey fs "pages" (.obj (rebuildPages (htmlSuffixOf fs) ps))
    else fs
  | none => fs

/-- Both structural transforms of `normalizeConfig` on an object's
fields: context propagation, then the pages-key patch. -/
def transformFields (fs : List (String × JVal)) : List (String × JVal) :=
  pagesStep (contextStep fs)

/-- The `normalizeConfig` function of UserConfig.js (lines 13-53). -/
def normalizeConfig (c : JVal) : JVal :=
  match extractDefault c with
  | .obj fs => .obj (transformFields fs)
  | c' => c'

/-! Association-list lemmas about `getKey`, `setKey` and `spreadInto`. -/

/-- Left-biased choice on optional values (`a` wins when present). -/
def orOpt (a b : Option JVal) : Option JVal :=
  match a with
  | some v => some v
  | none => b

/-- Value of the last binding of a key in a field list, if any. -/
def lastKey : List (String × JVal) → String → Option JVal
  | [], _ => none
  | (k', v) :: rest, k => orOpt (lastKey rest k) (if k' = k then some v else none)

theorem orOpt_assoc (a b c : Option JVal) : orOpt (orOpt a b) c = orOpt a (orOpt b c) := by
  cases a <;> rfl

theorem orOpt_none_left (b : Option JVal) : orOpt none b = b := rfl

theorem getKey_map_replace_self (fs : List (String × JVal)) (k : String) (v : JVal)
    (h : hasKey fs k = true) :
    getKey (fs.map (fun p => if p.1 = k then (k, v) else p)) k = some v := by
  induction fs with
  | nil => simp [hasKey, getKey] at h
  | cons p rest ih =>
    cases p with
    | mk pk pv =>
      simp only [List.map_cons]
      by_cases hpk : pk = k
      · rw [if_pos (show (pk, pv).1 = k from hpk)]
        simp [getKey]
      · rw [if_neg (show ¬ (pk, pv).1 = k from hpk)]
        have h' : hasKey rest k = true := by
          simpa [hasKey, getKey, hpk] using h
        simpa [getKey, hpk] using ih h'

theorem getKey_map_replace_other (fs : List (String × JVal)) (k : String) (v : JVal)
    (k' : String) (h : k' ≠ k) :
    getKey (fs.map (fun p => if p.1 = k then (k, v) else p)) k' = getKey fs k' := by
  induction fs with
  | nil => rfl
  | cons p rest ih =>
    cases p with
    | mk pk pv =>
      simp only [List.map_cons]
      by_cases hpk : pk = k
      · rw [if_pos (show (pk, pv).1 = k from hpk)]
        have h1 : ¬ k = k' := fun he => h he.symm
        have h2 : ¬ pk = k' := fun he => h (hpk ▸ he).symm
        simp [getKey, h1, h2, ih]
      · rw [if_neg (show ¬ (pk, pv).1 = k from hpk)]
        by_cases hpk' : pk = k'
        · simp [getKey, hpk']
        · simp [getKey, hpk', ih]

theorem getKey_append_single (fs : List (String × JVal)) (k : String) (v : JVal)
    (k' : String) (h : hasKey fs k = false) :
    getKey (fs ++ [(k, v)]) k' = if k' = k then some v else getKey fs k' := by
  induction fs with
  | nil =>
    by_cases hk : k' = k
    · simp [getKey, hk]
    · have : ¬ k = k' := fun he => hk he.symm
      simp [getKey, hk, this]
  | cons p rest ih =>
    cases p with
    | mk pk pv =>
      have hpk : pk ≠ k := by
        intro he
        simp [hasKey, getKey, he] at h
      have h' : hasKey rest k = false := by
        simpa [hasKey, getKey, hpk] using h
      by_cases hpk' : pk = k'
      · have hne : ¬ (k' = k) := by
          intro he
          exact hpk (by rw [hpk', he])
        simp [getKey, hpk', hne]
      · simp [getKey, hpk', ih h']

theorem getKey_setKey (fs : List (String × JVal)) (k : String) (v : JVal) (k' : String) :
    getKey (setKey fs k v) k' = if k' = k then some v else getKey fs k' := by
  unfold setKey
  by_cases h : hasKey fs k
  · simp only [h, if_true]
    by_cases hk : k' = k
    · rw [if_pos hk, hk]
      exact getKey_map_replace_self fs k v h
    · rw [if_neg hk]
      exact getKey_map_replace_other fs k v k' hk
  · simp only [h, Bool.false_eq_true, if_false]
    exact getKey_append_single fs k v k' (by simpa using h)

theorem hasKey_setKey (fs : List (String × JVal)) (k : String) (v : JVal) (k' : String) :
    hasKey (setKey fs k v) k' = (decide (k' = k) || hasKey fs k') := by
  unfold hasKey
  rw [getKey_setKey]
  by_cases hk : k' = k <;> simp [hk]

theorem keysOf_setKey (fs : List (String × JVal)) (k : String) (v : JVal) :
    keysOf (setKey fs k v) = if hasKey fs k then keysOf fs else keysOf fs ++ [k] := by
  unfold setKey
  by_cases h : hasKey fs k
  · simp only [h, if_true]
    unfold keysOf
    rw [List.map_map]
    apply List.map_congr_left
    intro p _
    by_cases hp : p.1 = k <;> simp [hp]
  · simp [h, keysOf]

theorem nodupKeys_cons_iff (k : String) (v : JVal) (rest : List (String × JVal)) :
    nodupKeys ((k, v) :: rest) = true ↔ hasKey rest k = false ∧ nodupKeys rest = true := by
  simp [nodupKeys]

theorem hasKey_iff_mem (fs : List (String × JVal)) (k : String) :
    hasKey fs k = true ↔ k ∈ keysOf fs := by
  induction fs with
  | nil => simp [hasKey, getKey, keysOf]
  | cons p rest ih =>
    cases p with
    | mk pk pv =>
      rw [show keysOf ((pk, pv) :: rest) = pk :: keysOf rest from rfl, List.mem_cons]
      by_cases hpk : pk = k
      · simp [hasKey, getKey, hpk]
      · simp only [hasKey, getKey, hpk, if_false]
        constructor
        · intro hh
          exact Or.inr (ih.1 hh)
        · rintro (he | hmem)
          · exact absurd he.symm hpk
          · exact ih.2 hmem

theorem nodupKeys_iff (fs : List (String × JVal)) :
    nodupKeys fs = true ↔ (keysOf fs).Nodup := by
  induction fs with
  | nil => simp [nodupKeys, keysOf]
  | cons p rest ih =>
    cases p with
    | mk pk pv =>
      rw [nodupKeys_cons_iff,
        show keysOf ((pk, pv) :: rest) = pk :: keysOf rest from rfl, List.nodup_cons, ← ih]
      constructor
      · rintro ⟨h1, h2⟩
        refine ⟨?_, h2⟩
        intro hmem
        rw [← hasKey_iff_mem] at hmem
        rw [hmem] at h1
        cases h1
      · rintro ⟨h1, h2⟩
        refine ⟨?_, h2⟩
        cases hc : hasKey rest pk
        · rfl
        · exact absurd ((hasKey_iff_mem rest pk).1 hc) h1

theorem nodupKeys_setKey (fs : List (String × JVal)) (k : String) (v : JVal)
    (h : nodupKeys fs = true) : nodupKeys (setKey fs k v) = true := by
  rw [nodupKeys_iff] at h ⊢
  rw [keysOf_setKey]
  by_cases hk : hasKey fs k
  · simpa [hk] using h
  · have hnm : k ∉ keysOf fs := by
      intro hmem
      rw [← hasKey_iff_mem] at hmem
      exact hk hmem
    simp only [hk, Bool.false_eq_true, if_false]
    simp [List.nodup_append, h, hnm]

theorem getKey_spreadInto (b a : List (String × JVal)) (k : String) :
    getKey (spreadInto a b) k = orOpt (lastKey b k) (getKey a k) := by
  induction b generalizing a with
  | nil => rfl
  | cons p bs ih =>
    cases p with
    | mk k0 v0 =>
      rw [show spreadInto a ((k0, v0) :: bs) = spreadInto (setKey a k0 v0) bs from rfl]
      rw [ih, getKey_setKey]
      rw [show lastKey ((k0, v0) :: bs) k
            = orOpt (lastKey bs k) (if k0 = k then some v0 else none) from rfl]
      rw [orOpt_assoc]
      congr 1
      by_cases hk : k = k0
      · simp [hk, orOpt]
      · have : ¬ k0 = k := fun he => hk he.symm
        simp [hk, this, orOpt]

theorem nodupKeys_spreadInto (b a : List (String × JVal))
    (h : nodupKeys a = true) : nodupKeys (spreadInto a b) = true := by
  induction b generalizing a with
  | nil => exact h
  | cons p bs ih =>
    exact ih (setKey a p.1 p.2) (nodupKeys_setKey a p.1 p.2 h)

theorem lastKey_eq_getKey (b : List (String × JVal)) (k : String)
    (h : nodupKeys b = true) : lastKey b k = getKey b k := by
  induction b with
  | nil => rfl
  | cons p bs ih =>
    cases p with
    | mk pk pv =>
      rcases (nodupKeys_cons_iff pk pv bs).1 h with ⟨h1, h2⟩
      rw [show lastKey ((pk, pv) :: bs) k
            = orOpt (lastKey bs k) (if pk = k then some pv else none) from rfl]
      rw [ih h2]
      by_cases hpk : pk = k
      · subst hpk
        have : getKey bs pk = none := by
          cases hg : getKey bs pk
          · rfl
          · rw [show hasKey bs pk = (getKey bs pk).isSome from rfl, hg] at h1
            cases h1
        simp [getKey, this, orOpt]
      · simp only [getKey, hpk, if_false]
        cases getKey bs k <;> simp [orOpt]

/-- Keys newly appended when a key list `kb` is assigned into an object
whose current keys are `ka` (first occurrences only, in order). -/
def newKeys (ka kb : List String) : List String :=
  match kb with
  | [] => []
  | k :: rest => if k ∈ ka then newKeys ka rest else k :: newKeys (ka ++ [k]) rest

theorem keysOf_spreadInto (b a : List (String × JVal)) :
    keysOf (spreadInto a b) = keysOf a ++ newKeys (keysOf a) (keysOf b) := by
  induction b generalizing a with
  | nil => simp [spreadInto, newKeys, keysOf]
  | cons p bs ih =>
    cases p with
    | mk k0 v0 =>
      rw [show spreadInto a ((k0, v0) :: bs) = spreadInto (setKey a k0 v0) bs from rfl]
      rw [ih, keysOf_setKey]
      rw [show keysOf ((k0, v0) :: bs) = k0 :: keysOf bs from rfl]
      by_cases hk : hasKey a k0
      · have hmem : k0 ∈ keysOf a := (hasKey_iff_mem a k0).1 hk
        rw [if_pos hk]
        rw [show newKeys (keysOf a) (k0 :: keysOf bs)
              = if k0 ∈ keysOf a then newKeys (keysOf a) (keysOf bs)
                else k0 :: newKeys (keysOf a ++ [k0]) (keysOf bs) from rfl]
        rw [if_pos hmem]
      · have hmem : k0 ∉ keysOf a := fun hm => hk ((hasKey_iff_mem a k0).2 hm)
        rw [if_neg hk]
        rw [show newKeys (keysOf a) (k0 :: keysOf bs)
              = if k0 ∈ keysOf a then newKeys (keysOf a) (keysOf bs)
                else k0 :: newKeys (keysOf a ++ [k0]) (keysOf bs) from rfl]
        rw [if_neg hmem]
        simp [List.append_assoc]

theorem newKeys_not_mem (kb ka : List String) (x : String) (h : x ∈ newKeys ka kb) :
    x ∉ ka := by
  induction kb generalizing ka with
  | nil => simp [newKeys] at h
  | cons k rest ih =>
    rw [show newKeys ka (k :: rest)
          = if k ∈ ka then newKeys ka rest else k :: newKeys (ka ++ [k]) rest from rfl] at h
    by_cases hk : k ∈ ka
    · rw [if_pos hk] at h
      exact ih ka h
    · rw [if_neg hk] at h
      rcases List.mem_cons.1 h with he | hmem
      · subst he
        exact hk
      · intro hx
        exact (ih (ka ++ [k]) hmem) (List.mem_append_left _ hx)

theorem newKeys_nodup (kb ka : List String) : (newKeys ka kb).Nodup := by
  induction kb generalizing ka with
  | nil => simp [newKeys]
  | cons k rest ih =>
    rw [show newKeys ka (k :: rest)
          = if k ∈ ka then newKeys ka rest else k :: newKeys (ka ++ [k]) rest from rfl]
    by_cases hk : k ∈ ka
    · rw [if_pos hk]
      exact ih ka
    · rw [if_neg hk]
      rw [List.nodup_cons]
      refine ⟨?_, ih (ka ++ [k])⟩
      intro hmem
      exact (newKeys_not_mem rest (ka ++ [k]) k hmem) (List.mem_append_right _ (by simp))

theorem newKeys_append_mem (kb pre ka : List String) (h : ∀ x ∈ pre, x ∈ ka) :
    newKeys ka (pre ++ kb) = newKeys ka kb := by
  induction pre with
  | nil => rfl
  | cons k rest ih =>
    rw [List.cons_append]
    rw [show newKeys ka (k :: (rest ++ kb))
          = if k ∈ ka then newKeys ka (rest ++ kb)
            else k :: newKeys (ka ++ [k]) (rest ++ kb) from rfl]
    rw [if_pos (h k (by simp))]
    exact ih (fun x hx => h x (by simp [hx]))

theorem newKeys_self (kb ka : List String) (hnd : kb.Nodup) (h : ∀ x ∈ kb, x ∉ ka) :
    newKeys ka kb = kb := by
  induction kb generalizing ka with
  | nil => rfl
  | cons k rest ih =>
    rw [show newKeys ka (k :: rest)
          = if k ∈ ka then newKeys ka rest else k :: newKeys (ka ++ [k]) rest from rfl]
    rw [if_neg (h k (by simp))]
    rw [List.nodup_cons] at hnd
    congr 1
    refine ih (ka ++ [k]) hnd.2 ?_
    intro x hx
    intro hmem
    rcases List.mem_append.1 hmem with hm | hm
    · exact (h x (by simp [hx])) hm
    · rcases List.mem_singleton.1 hm with he
      subst he
      exact hnd.1 hx

theorem fields_ext (u w : List (String × JVal)) (hu : nodupKeys u = true)
    (hw : nodupKeys w = true) (hk : keysOf u = keysOf w)
    (hv : ∀ k, getKey u k = getKey w k) : u = w := by
  induction u generalizing w with
  | nil =>
    cases w with
    | nil => rfl
    | cons q ws => simp [keysOf] at hk
  | cons p us ih =>
    cases w with
    | nil => simp [keysOf] at hk
    | cons q ws =>
      cases p with
      | mk pk pv =>
        cases q with
        | mk qk qv =>
          rw [show keysOf ((pk, pv) :: us) = pk :: keysOf us from rfl,
             show keysOf ((qk, qv) :: ws) = qk :: keysOf ws from rfl] at hk
          injection hk with hk1 hk2
          subst hk1
          have hpv : pv = qv := by
            have := hv pk
            simp [getKey] at this
            exact this
          subst hpv
          rcases (nodupKeys_cons_iff pk pv us).1 hu with ⟨hu1, hu2⟩
          rcases (nodupKeys_cons_iff pk pv ws).1 hw with ⟨hw1, hw2⟩
          congr 1
          refine ih ws hu2 hw2 hk2 ?_
          intro k
          by_cases hkk : pk = k
          · subst hkk
            rw [show hasKey us pk = (getKey us pk).isSome from rfl] at hu1
            rw [show hasKey ws pk = (getKey ws pk).isSome from rfl] at hw1
            cases hg : getKey us pk
            · cases hg' : getKey ws pk
              · rfl
              · rw [hg'] at hw1
                cases hw1
            · rw [hg] at hu1
              cases hu1
          · have := hv k
            simpa [getKey, hkk] using this

theorem hasKey_spreadInto_of_base (b a : List (String × JVal)) (k : String)
    (h : hasKey a k = true) : hasKey (spreadInto a b) k = true := by
  rw [show hasKey (spreadInto a b) k = (getKey (spreadInto a b) k).isSome from rfl]
  rw [getKey_spreadInto]
  rw [show hasKey a k = (getKey a k).isSome from rfl] at h
  cases hg : getKey a k
  · rw [hg] at h
    cases h
  · cases lastKey b k <;> simp [orOpt, hg]

theorem spread_fix (b a : List (String × JVal)) (h : nodupKeys a = true) :
    spreadInto a (spreadInto a b) = spreadInto a b := by
  have hm : nodupKeys (spreadInto a b) = true := nodupKeys_spreadInto b a h
  refine fields_ext _ _ (nodupKeys_spreadInto _ a h) hm ?_ ?_
  · rw [keysOf_spreadInto (spreadInto a b) a, keysOf_spreadInto b a]
    rw [newKeys_append_mem _ (keysOf a) (keysOf a) (fun x hx => hx)]
    rw [newKeys_self _ (keysOf a) (newKeys_nodup _ _) (fun x hx => newKeys_not_mem _ _ x hx)]
  · intro k
    rw [getKey_spreadInto]
    rw [lastKey_eq_getKey _ k hm]
    cases hg : getKey (spreadInto a b) k
    · rw [getKey_spreadInto] at hg
      cases hga : getKey a k
      · simp [orOpt]
      · rw [hga] at hg
        cases hl : lastKey b k
        · rw [hl] at hg
          simp [orOpt] at hg
        · rw [hl] at hg
          simp [orOpt] at hg
    · simp [orOpt]

theorem spreadInto_disjoint (l acc : List (String × JVal))
    (hd : ∀ p ∈ l, hasKey acc p.1 = false) (hl : nodupKeys l = true) :
    spreadInto acc l = acc ++ l := by
  induction l generalizing acc with
  | nil => simp [spreadInto]
  | cons p ls ih =>
    cases p with
    | mk pk pv =>
      rcases (nodupKeys_cons_iff pk pv ls).1 hl with ⟨h1, h2⟩
      rw [show spreadInto acc ((pk, pv) :: ls) = spreadInto (setKey acc pk pv) ls from rfl]
      have hacc : hasKey acc pk = false := hd (pk, pv) (by simp)
      rw [show setKey acc pk pv = acc ++ [(pk, pv)] from by simp [setKey, hacc]]
      rw [ih (acc ++ [(pk, pv)]) ?_ h2]
      · simp
      · intro q hq
        rw [show hasKey (acc ++ [(pk, pv)]) q.1
              = (getKey (acc ++ [(pk, pv)]) q.1).isSome from rfl]
        rw [getKey_append_single acc pk pv q.1 hacc]
        by_cases hq1 : q.1 = pk
        · exfalso
          have : hasKey ls pk = true := by
            rw [hasKey_iff_mem]
            rw [← hq1]
            exact List.mem_map_of_mem Prod.fst hq
          rw [this] at h1
          cases h1
        · rw [if_neg hq1]
          exact hd q (by simp [hq])

theorem spreadInto_nil (l : List (String × JVal)) (h : nodupKeys l = true) :
    spreadInto [] l = l := by
  rw [spreadInto_disjoint l [] (fun p _ => rfl) h]
  rfl

/-! String lemmas about the pages key rewrite. -/

theorem isSuffixOf_iff_suffix {l1 l2 : List Char} : l1.isSuffixOf l2 ↔ l1 <:+ l2 := by
  simp [List.isSuffixOf, List.reverse_prefix]

theorem startsSlash_prepend (k : String) : startsSlash ("/" ++ k) = true := by
  unfold startsSlash
  rw [show ("/" ++ k).data = '/' :: k.data from by rw [String.data_append]; rfl]
  rfl

theorem endsHtml_append (k : String) : endsHtml (k ++ ".html") = true := by
  unfold endsHtml
  rw [String.data_append]
  rw [show (List.isSuffixOf ".html".data (k.data ++ ".html".data) = true)
        = (".html".data <:+ k.data ++ ".html".data) from by
      rw [eq_iff_iff, ← isSuffixOf_iff_suffix]]
  exact List.suffix_append k.data ".html".data

theorem endsHtml_prepend (k : String) (h : endsHtml k = true) :
    endsHtml ("/" ++ k) = true := by
  unfold endsHtml at h ⊢
  rw [String.data_append]
  rw [isSuffixOf_iff_suffix] at h ⊢
  exact h.trans (List.suffix_append "/".data k.data)

theorem endsSlash_prepend (k : String) (h : k.data ≠ []) :
    endsSlash ("/" ++ k) = endsSlash k := by
  unfold endsSlash
  rw [String.data_append, List.getLast?_append_of_ne_nil "/".data h]

theorem endsSlash_ne_empty (k : String) (h : endsSlash k = true) : k.data ≠ [] := by
  intro he
  rw [show endsSlash k = (k.data.getLast? == some '/') from rfl, he] at h
  simp at h

theorem slashStep_startsSlash (s : String) : startsSlash (slashStep s) = true := by
  unfold slashStep
  by_cases hc : startsSlash s
  · rw [if_pos hc]
    exact hc
  · rw [if_neg hc]
    exact startsSlash_prepend s

theorem endsSlash_slashStep (k : String) (h : endsSlash k = true) :
    endsSlash (slashStep k) = true := by
  unfold slashStep
  by_cases hc : startsSlash k
  · rw [if_pos hc]
    exact h
  · rw [if_neg hc, endsSlash_prepend k (endsSlash_ne_empty k h)]
    exact h

theorem endsHtml_slashStep (k : String) (h : endsHtml k = true) :
    endsHtml (slashStep k) = true := by
  unfold slashStep
  by_cases hc : startsSlash k
  · rw [if_pos hc]
    exact h
  · rw [if_neg hc]
    exact endsHtml_prepend k h

theorem rewriteKey_endsStable (k : String) :
    (endsSlash (rewriteKey true k) || endsHtml (rewriteKey true k)) = true := by
  unfold rewriteKey suffixStep
  by_cases hc : (true && !endsSlash k && !endsHtml k) = true
  · rw [if_pos hc]
    rw [endsHtml_slashStep _ (endsHtml_append k)]
    simp
  · rw [if_neg hc]
    by_cases h1 : endsSlash k
    · rw [endsSlash_slashStep k h1]
      simp
    · by_cases h2 : endsHtml k
      · rw [endsHtml_slashStep k h2]
        simp
      · exfalso
        apply hc
        simp only [Bool.not_eq_true] at h1 h2
        rw [h1, h2]
        rfl

theorem rewriteKey_idem (hs : Bool) (k : String) :
    rewriteKey hs (rewriteKey hs k) = rewriteKey hs k := by
  have hstart := slashStep_startsSlash (suffixStep hs k)
  have hfix : suffixStep hs (rewriteKey hs k) = rewriteKey hs k := by
    cases hhs : hs
    · unfold suffixStep
      rw [if_neg]
      simp
    · have := rewriteKey_endsStable k
      unfold suffixStep
      rw [if_neg]
      intro hcontra
      rcases Bool.and_eq_true _ _ |>.mp hcontra with ⟨h1, h2⟩
      rcases Bool.and_eq_true _ _ |>.mp h1 with ⟨_, h3⟩
      rw [Bool.not_eq_true'] at h2 h3
      rw [h2, h3] at this
      simp at this
  rw [show rewriteKey hs (rewriteKey hs k)
        = slashStep (suffixStep hs (rewriteKey hs k)) from rfl]
  rw [hfix]
  rw [show rewriteKey hs k = slashStep (suffixStep hs k) from rfl]
  unfold slashStep
  rw [if_pos]
  exact hstart

/-! Membership and self-assignment lemmas. -/

theorem mem_setKey (fs : List (String × JVal)) (k : String) (v : JVal)
    (q : String × JVal) (h : q ∈ setKey fs k v) : q = (k, v) ∨ q ∈ fs := by
  unfold setKey at h
  by_cases hk : hasKey fs k
  · rw [if_pos hk] at h
    rcases List.mem_map.1 h with ⟨p, hp, he⟩
    by_cases hp1 : p.1 = k
    · rw [if_pos hp1] at he
      exact Or.inl he.symm
    · rw [if_neg hp1] at he
      exact Or.inr (he ▸ hp)
  · rw [if_neg hk] at h
    rcases List.mem_append.1 h with hm | hm
    · exact Or.inr hm
    · exact Or.inl (List.mem_singleton.1 hm)

theorem getKey_of_mem_nodup (fs : List (String × JVal)) (p : String × JVal)
    (hnd : nodupKeys fs = true) (h : p ∈ fs) : getKey fs p.1 = some p.2 := by
  induction fs with
  | nil => simp at h
  | cons q rest ih =>
    cases q with
    | mk qk qv =>
      rcases (nodupKeys_cons_iff qk qv rest).1 hnd with ⟨h1, h2⟩
      rcases List.mem_cons.1 h with he | hm
      · subst he
        simp [getKey]
      · by_cases hq : qk = p.1
        · exfalso
          have : hasKey rest p.1 = true := by
            rw [hasKey_iff_mem]
            exact List.mem_map_of_mem Prod.fst hm
          rw [← hq] at this
          rw [this] at h1
          cases h1
        · simp only [getKey, hq, if_false]
          exact ih h2 hm

theorem setKey_self (fs : List (String × JVal)) (k : String) (v : JVal)
    (hnd : nodupKeys fs = true) (h : getKey fs k = some v) : setKey fs k v = fs := by
  unfold setKey
  rw [if_pos (by rw [show hasKey fs k = (getKey fs k).isSome from rfl, h]; rfl)]
  rw [show fs.map (fun p => if p.1 = k then (k, v) else p) = fs.map id from ?_, List.map_id]
  apply List.map_congr_left
  intro p hp
  by_cases hp1 : p.1 = k
  · rw [if_pos hp1, id]
    have := getKey_of_mem_nodup fs p hnd hp
    rw [hp1, h] at this
    injection this with hv
    rw [← hp1, hv]
  · rw [if_neg hp1]
    rfl

theorem mem_spreadInto (b a : List (String × JVal)) (q : String × JVal)
    (h : q ∈ spreadInto a b) : q ∈ a ∨ q ∈ b := by
  induction b generalizing a with
  | nil => exact Or.inl h
  | cons p bs ih =>
    rw [show spreadInto a (p :: bs) = spreadInto (setKey a p.1 p.2) bs from rfl] at h
    rcases ih (setKey a p.1 p.2) h with hm | hm
    · rcases mem_setKey a p.1 p.2 q hm with he | hm'
      · right
        rw [he]
        simp
      · exact Or.inl hm'
    · right
      exact List.mem_cons_of_mem p hm

/-! Lemmas about `rebuildPages` and the two normalization steps. -/

theorem rebuildPages_eq_spreadInto (hs : Bool) (ps : List (String × JVal)) :
    rebuildPages hs ps = spreadInto [] (ps.map (fun p => (rewriteKey hs p.1, p.2))) := by
  unfold rebuildPages spreadInto
  rw [List.foldl_map]

theorem rebuildPages_nodup (hs : Bool) (ps : List (String × JVal)) :
    nodupKeys (rebuildPages hs ps) = true := by
  rw [rebuildPages_eq_spreadInto]
  exact nodupKeys_spreadInto _ [] rfl

theorem mem_rebuildPages (hs : Bool) (ps : List (String × JVal)) (q : String × JVal)
    (h : q ∈ rebuildPages hs ps) : ∃ p ∈ ps, q = (rewriteKey hs p.1, p.2) := by
  rw [rebuildPages_eq_spreadInto] at h
  rcases mem_spreadInto _ [] q h with hm | hm
  · simp at hm
  · rcases List.mem_map.1 hm with ⟨p, hp, he⟩
    exact ⟨p, hp, he.symm⟩

theorem rebuildPages_fix (hs : Bool) (ps : List (String × JVal))
    (hfix : ∀ p ∈ ps, rewriteKey hs p.1 = p.1) (hnd : nodupKeys ps = true) :
    rebuildPages hs ps = ps := by
  rw [rebuildPages_eq_spreadInto]
  rw [show ps.map (fun p => (rewriteKey hs p.1, p.2)) = ps.map id from ?_, List.map_id]
  · exact spreadInto_nil ps hnd
  · apply List.map_congr_left
    intro p hp
    rw [hfix p hp, id]

theorem getKey_contextStep (fs : List (String × JVal)) (k : String) (h : k ≠ "pages") :
    getKey (contextStep fs) k = getKey fs k := by
  unfold contextStep
  cases getKey fs "context" with
  | none => rfl
  | some cv =>
    cases hpv : getKey fs "pages" with
    | none => rfl
    | some pv =>
      dsimp only
      by_cases ht : (truthy cv && truthy pv) = true
      · rw [if_pos ht]
        cases pv with
        | obj ps =>
          rw [getKey_setKey, if_neg h]
        | null => rfl
        | bool b => rfl
        | num n => rfl
        | str s => rfl
        | arr l => rfl
      · rw [if_neg ht]

theorem getKey_pagesStep (fs : List (String × JVal)) (k : String) (h : k ≠ "pages") :
    getKey (pagesStep fs) k = getKey fs k := by
  unfold pagesStep
  cases getKey fs "pages" with
  | none => rfl
  | some pv =>
    dsimp only
    by_cases ht : truthy pv = true
    · rw [if_pos ht, getKey_setKey, if_neg h]
    · rw [if_neg ht]

theorem getKey_transformFields (fs : List (String × JVal)) (k : String) (h : k ≠ "pages") :
    getKey (transformFields fs) k = getKey fs k := by
  unfold transformFields
  rw [getKey_pagesStep _ k h, getKey_contextStep _ k h]

theorem nodupKeys_contextStep (fs : List (String × JVal)) (h : nodupKeys fs = true) :
    nodupKeys (contextStep fs) = true := by
  unfold contextStep
  cases getKey fs "context" with
  | none => exact h
  | some cv =>
    cases getKey fs "pages" with
    | none => exact h
    | some pv =>
      dsimp only
      by_cases ht : (truthy cv && truthy pv) = true
      · rw [if_pos ht]
        cases pv with
        | obj ps => exact nodupKeys_setKey fs _ _ h
        | null => exact h
        | bool b => exact h
        | num n => exact h
        | str s => exact h
        | arr l => exact h
      · rw [if_neg ht]
        exact h

theorem nodupKeys_pagesStep (fs : List (String × JVal)) (h : nodupKeys fs = true) :
    nodupKeys (pagesStep fs) = true := by
  unfold pagesStep
  cases getKey fs "pages" with
  | none => exact h
  | some pv =>
    dsimp only
    by_cases ht : truthy pv = true
    · rw [if_pos ht]
      exact nodupKeys_setKey fs _ _ h
    · rw [if_neg ht]
      exact h

theorem nodupKeys_transformFields (fs : List (String × JVal)) (h : nodupKeys fs = true) :
    nodupKeys (transformFields fs) = true :=
  nodupKeys_pagesStep _ (nodupKeys_contextStep fs h)

theorem htmlSuffixOf_congr (fs fs' : List (String × JVal))
    (h : getKey fs' "exportStatic" = getKey fs "exportStatic") :
    htmlSuffixOf fs' = htmlSuffixOf fs := by
  unfold htmlSuffixOf
  rw [h]

/-! Idempotence of the normalization transform (restricted to the
modelled domain, see the header note). -/

/-- Shape restriction on `pages` under which `normalizeConfig` models the
JavaScript faithfully: a truthy `pages` namespace must be an object, and
when a truthy `context` namespace is present every page entry must be an
object with duplicate-free keys (otherwise the strict-mode assignment
`page.context = ...` would throw, or `Object.keys` would enumerate
character/array indices). -/
def pagesShapeOk (fs : List (String × JVal)) : Bool :=
  match getKey fs "pages" with
  | none => true
  | some pv =>
    if truthy pv then
      match pv with
      | .obj ps =>
        match getKey fs "context" with
        | some cv =>
          if truthy cv then
            ps.all (fun p => match p.2 with
              | .obj pfs => nodupKeys pfs
              | _ => false)
          else true
        | none => true
      | _ => false
    else true

theorem mergeContextInto_fst (cv : JVal) (p : String × JVal) :
    (mergeContextInto cv p).1 = p.1 := by
  unfold mergeContextInto
  cases p with
  | mk k v => cases v <;> rfl

theorem mergeContextInto_snd_congr (cv : JVal) (p r : String × JVal)
    (h : p.2 = r.2) : (mergeContextInto cv p).2 = (mergeContextInto cv r).2 := by
  unfold mergeContextInto
  cases p with
  | mk k v =>
    cases r with
    | mk k' v' =>
      simp only at h
      subst h
      cases v <;> rfl

theorem mergeContextInto_fix (cv : JVal) (k0 : String) (pfs : List (String × JVal))
    (hnd : nodupKeys pfs = true) :
    mergeContextInto cv (mergeContextInto cv (k0, .obj pfs))
      = mergeContextInto cv (k0, .obj pfs) := by
  have hstep : mergeContextInto cv (k0, JVal.obj pfs)
      = (k0, JVal.obj (setKey pfs "context"
          (.obj (objLit2 (spreadFields cv)
            (spreadFields ((getKey pfs "context").getD .null)))))) := rfl
  rw [hstep]
  have hget : getKey (setKey pfs "context"
      (JVal.obj (objLit2 (spreadFields cv)
        (spreadFields ((getKey pfs "context").getD .null))))) "context"
      = some (JVal.obj (objLit2 (spreadFields cv)
          (spreadFields ((getKey pfs "context").getD .null)))) := by
    rw [getKey_setKey, if_pos rfl]
  rw [show mergeContextInto cv (k0, JVal.obj (setKey pfs "context"
        (.obj (objLit2 (spreadFields cv)
          (spreadFields ((getKey pfs "context").getD .null))))))
      = (k0, JVal.obj (setKey (setKey pfs "context"
          (.obj (objLit2 (spreadFields cv)
            (spreadFields ((getKey pfs "context").getD .null))))) "context"
          (.obj (objLit2 (spreadFields cv)
            (spreadFields ((getKey (setKey pfs "context"
              (.obj (objLit2 (spreadFields cv)
                (spreadFields ((getKey pfs "context").getD .null))))) "context").getD .null)))))) from rfl]
  rw [hget]
  rw [show (some (JVal.obj (objLit2 (spreadFields cv)
      (spreadFields ((getKey pfs "context").getD .null))))).getD JVal.null
      = JVal.obj (objLit2 (spreadFields cv)
          (spreadFields ((getKey pfs "context").getD .null))) from rfl]
  rw [show spreadFields (JVal.obj (objLit2 (spreadFields cv)
      (spreadFields ((getKey pfs "context").getD .null))))
      = objLit2 (spreadFields cv) (spreadFields ((getKey pfs "context").getD .null)) from rfl]
  have hs0 : nodupKeys (spreadInto [] (spreadFields cv)) = true :=
    nodupKeys_spreadInto _ [] rfl
  rw [show objLit2 (spreadFields cv) (objLit2 (spreadFields cv)
      (spreadFields ((getKey pfs "context").getD .null)))
      = objLit2 (spreadFields cv) (spreadFields ((getKey pfs "context").getD .null)) from by
    unfold objLit2
    exact spread_fix _ _ hs0]
  rw [setKey_self _ "context" _ (nodupKeys_setKey pfs _ _ hnd) hget]

theorem pagesStep_stable (H Q : List (String × JVal)) (hHnd : nodupKeys H = true)
    (hHpages : getKey H "pages" = some (.obj Q))
    (hkeys : ∀ q ∈ Q, rewriteKey (htmlSuffixOf H) q.1 = q.1)
    (hQnd : nodupKeys Q = true) :
    pagesStep H = H := by
  unfold pagesStep
  rw [hHpages]
  dsimp only
  rw [if_pos (show truthy (JVal.obj Q) = true from rfl)]
  rw [show spreadFields (JVal.obj Q) = Q from rfl]
  rw [rebuildPages_fix _ _ hkeys hQnd]
  exact setKey_self H "pages" _ hHnd hHpages

theorem contextStep_stable (H Q : List (String × JVal)) (cv : JVal)
    (hHnd : nodupKeys H = true)
    (hHctx : getKey H "context" = some cv) (hcvt : truthy cv = true)
    (hHpages : getKey H "pages" = some (.obj Q))
    (hfix : ∀ q ∈ Q, mergeContextInto cv q = q) :
    contextStep H = H := by
  unfold contextStep
  rw [hHctx, hHpages]
  dsimp only
  rw [if_pos (by rw [hcvt]; rfl)]
  rw [show Q.map (mergeContextInto cv) = Q.map id from
        List.map_congr_left (fun q hq => by rw [hfix q hq]; rfl),
      List.map_id]
  exact setKey_self H "pages" _ hHnd hHpages

theorem contextStep_skip (H : List (String × JVal))
    (h : ∀ cv, getKey H "context" = some cv → truthy cv = false) :
    contextStep H = H := by
  unfold contextStep
  cases hc : getKey H "context" with
  | none => cases getKey H "pages" <;> rfl
  | some cv =>
    cases getKey H "pages" with
    | none => rfl
    | some pv =>
      dsimp only
      rw [if_neg]
      intro hx
      rcases Bool.and_eq_true _ _ |>.mp hx with ⟨h1, _⟩
      rw [h cv hc] at h1
      cases h1

theorem transformFields_stable (H Q : List (String × JVal))
    (hHnd : nodupKeys H = true)
    (hHpages : getKey H "pages" = some (.obj Q))
    (hQnd : nodupKeys Q = true)
    (hkeys : ∀ q ∈ Q, rewriteKey (htmlSuffixOf H) q.1 = q.1)
    (hctx : (∀ cv, getKey H "context" = some cv → truthy cv = false)
        ∨ ∃ cv, getKey H "context" = some cv ∧ truthy cv = true
            ∧ ∀ q ∈ Q, mergeContextInto cv q = q) :
    transformFields H = H := by
  unfold transformFields
  rcases hctx with hskip | ⟨cv, hcv, hcvt, hfix⟩
  · rw [contextStep_skip H hskip]
    exact pagesStep_stable H Q hHnd hHpages hkeys hQnd
  · rw [contextStep_stable H Q cv hHnd hcv hcvt hHpages hfix]
    exact pagesStep_stable H Q hHnd hHpages hkeys hQnd

theorem transformFields_idem_noCtx (fs ps : List (String × JVal))
    (hnd : nodupKeys fs = true)
    (hpv : getKey fs "pages" = some (.obj ps))
    (hskip : ∀ cv, getKey fs "context" = some cv → truthy cv = false) :
    transformFields (transformFields fs) = transformFields fs := by
  have hps2 : pagesStep fs
      = setKey fs "pages" (JVal.obj (rebuildPages (htmlSuffixOf fs) ps)) := by
    unfold pagesStep
    rw [hpv]
    dsimp only
    rw [if_pos (show truthy (JVal.obj ps) = true from rfl)]
    rfl
  have hT : transformFields fs
      = setKey fs "pages" (JVal.obj (rebuildPages (htmlSuffixOf fs) ps)) := by
    unfold transformFields
    rw [contextStep_skip fs hskip, hps2]
  rw [hT]
  have hHnd := nodupKeys_setKey fs "pages"
    (JVal.obj (rebuildPages (htmlSuffixOf fs) ps)) hnd
  have hHpages : getKey (setKey fs "pages"
      (JVal.obj (rebuildPages (htmlSuffixOf fs) ps))) "pages"
      = some (JVal.obj (rebuildPages (htmlSuffixOf fs) ps)) := by
    rw [getKey_setKey, if_pos rfl]
  have hHctx : getKey (setKey fs "pages"
      (JVal.obj (rebuildPages (htmlSuffixOf fs) ps))) "context"
      = getKey fs "context" := by
    rw [getKey_setKey, if_neg (by decide)]
  have hHes : getKey (setKey fs "pages"
      (JVal.obj (rebuildPages (htmlSuffixOf fs) ps))) "exportStatic"
      = getKey fs "exportStatic" := by
    rw [getKey_setKey, if_neg (by decide)]
  have hHhs := htmlSuffixOf_congr fs _ hHes
  refine transformFields_stable _ (rebuildPages (htmlSuffixOf fs) ps)
    hHnd hHpages (rebuildPages_nodup _ _) ?_ (Or.inl ?_)
  · intro q hq
    rcases mem_rebuildPages _ _ q hq with ⟨pg, hpg, he⟩
    rw [hHhs, he]
    exact rewriteKey_idem _ _
  · intro cv hc
    rw [hHctx] at hc
    exact hskip cv hc

theorem transformFields_idem_ctx (fs ps : List (String × JVal)) (cv : JVal)
    (hnd : nodupKeys fs = true)
    (hpv : getKey fs "pages" = some (.obj ps))
    (hcv : getKey fs "context" = some cv) (hcvt : truthy cv = true)
    (hall : ∀ p ∈ ps, ∃ pfs, p.2 = JVal.obj pfs ∧ nodupKeys pfs = true) :
    transformFields (transformFields fs) = transformFields fs := by
  have hcs : contextStep fs
      = setKey fs "pages" (JVal.obj (ps.map (mergeContextInto cv))) := by
    unfold contextStep
    rw [hcv, hpv]
    dsimp only
    rw [if_pos (by rw [hcvt]; rfl)]
  have hgnd := nodupKeys_setKey fs "pages"
    (JVal.obj (ps.map (mergeContextInto cv))) hnd
  have hgpages : getKey (setKey fs "pages"
      (JVal.obj (ps.map (mergeContextInto cv)))) "pages"
      = some (JVal.obj (ps.map (mergeContextInto cv))) := by
    rw [getKey_setKey, if_pos rfl]
  have hges : getKey (setKey fs "pages"
      (JVal.obj (ps.map (mergeContextInto cv)))) "exportStatic"
      = getKey fs "exportStatic" := by
    rw [getKey_setKey, if_neg (by decide)]
  have hghs := htmlSuffixOf_congr fs _ hges
  have hps2 : pagesStep (setKey fs "pages" (JVal.obj (ps.map (mergeContextInto cv))))
      = setKey (setKey fs "pages" (JVal.obj (ps.map (mergeContextInto cv)))) "pages"
          (JVal.obj (rebuildPages (htmlSuffixOf fs) (ps.map (mergeContextInto cv)))) := by
    unfold pagesStep
    rw [hgpages]
    dsimp only
    rw [if_pos (show truthy (JVal.obj (ps.map (mergeContextInto cv))) = true from rfl)]
    rw [show spreadFields (JVal.obj (ps.map (mergeContextInto cv)))
          = ps.map (mergeContextInto cv) from rfl]
    rw [hghs]
  have hT : transformFields fs
      = setKey (setKey fs "pages" (JVal.obj (ps.map (mergeContextInto cv)))) "pages"
          (JVal.obj (rebuildPages (htmlSuffixOf fs) (ps.map (mergeContextInto cv)))) := by
    unfold transformFields
    rw [hcs, hps2]
  rw [hT]
  have hHnd := nodupKeys_setKey _ "pages"
    (JVal.obj (rebuildPages (htmlSuffixOf fs) (ps.map (mergeContextInto cv)))) hgnd
  have hHpages : getKey (setKey (setKey fs "pages"
      (JVal.obj (ps.map (mergeContextInto cv)))) "pages"
      (JVal.obj (rebuildPages (htmlSuffixOf fs) (ps.map (mergeContextInto cv))))) "pages"
      = some (JVal.obj (rebuildPages (htmlSuffixOf fs) (ps.map (mergeContextInto cv)))) := by
    rw [getKey_setKey, if_pos rfl]
  have hHctx : getKey (setKey (setKey fs "pages"
      (JVal.obj (ps.map (mergeContextInto cv)))) "pages"
      (JVal.obj (rebuildPages (htmlSuffixOf fs) (ps.map (mergeContextInto cv))))) "context"
      = some cv := by
    rw [getKey_setKey, if_neg (by decide), getKey_setKey, if_neg (by decide), hcv]
  have hHes : getKey (setKey (setKey fs "pages"
      (JVal.obj (ps.map (mergeContextInto cv)))) "pages"
      (JVal.obj (rebuildPages (htmlSuffixOf fs) (ps.map (mergeContextInto cv))))) "exportStatic"
      = getKey fs "exportStatic" := by
    rw [getKey_setKey, if_neg (by decide), getKey_setKey, if_neg (by decide)]
  have hHhs := htmlSuffixOf_congr fs _ hHes
  have hQfix : ∀ q ∈ rebuildPages (htmlSuffixOf fs) (ps.map (mergeContextInto cv)),
      mergeContextInto cv q = q := by
    intro q hq
    rcases mem_rebuildPages _ _ q hq with ⟨pg, hpg, he⟩
    rcases List.mem_map.1 hpg with ⟨p0, hp0, hpe⟩
    rcases hall p0 hp0 with ⟨pfs, hp2, hpnd⟩
    have hp0e : (p0.1, JVal.obj pfs) = p0 := by
      rw [← hp2]
    have hmcfix := mergeContextInto_fix cv p0.1 pfs hpnd
    rw [hp0e] at hmcfix
    have hq2 : q.2 = pg.2 := by rw [he]
    have hfst : (mergeContextInto cv q).1 = q.1 := mergeContextInto_fst cv q
    have hsnd : (mergeContextInto cv q).2 = q.2 := by
      rw [mergeContextInto_snd_congr cv q pg hq2, ← hpe, hmcfix, hpe, ← hq2]
    calc mergeContextInto cv q
        = ((mergeContextInto cv q).1, (mergeContextInto cv q).2) := rfl
      _ = (q.1, q.2) := by rw [hfst, hsnd]
      _ = q := rfl
  refine transformFields_stable _
    (rebuildPages (htmlSuffixOf fs) (ps.map (mergeContextInto cv)))
    hHnd hHpages (rebuildPages_nodup _ _) ?_ (Or.inr ⟨cv, hHctx, hcvt, hQfix⟩)
  intro q hq
  rcases mem_rebuildPages _ _ q hq with ⟨pg, hpg, he⟩
  rw [hHhs, he]
  exact rewriteKey_idem _ _

theorem transformFields_idem (fs : List (String × JVal)) (hnd : nodupKeys fs = true)
    (hsh : pagesShapeOk fs = true) :
    transformFields (transformFields fs) = transformFields fs := by
  cases hpv : getKey fs "pages" with
  | none =>
    have hc : contextStep fs = fs := by
      unfold contextStep
      rw [hpv]
      cases getKey fs "context" <;> rfl
    have hp : pagesStep fs = fs := by
      unfold pagesStep
      rw [hpv]
    have hT : transformFields fs = fs := by
      unfold transformFields
      rw [hc, hp]
    rw [hT, hT]
  | some pv =>
    by_cases htv : truthy pv = true
    · cases pv with
      | null => simp [truthy] at htv
      | bool b =>
        exfalso
        unfold pagesShapeOk at hsh
        rw [hpv] at hsh
        dsimp only at hsh
        rw [if_pos htv] at hsh
        cases hsh
      | num n =>
        exfalso
        unfold pagesShapeOk at hsh
        rw [hpv] at hsh
        dsimp only at hsh
        rw [if_pos htv] at hsh
        cases hsh
      | str s =>
        exfalso
        unfold pagesShapeOk at hsh
        rw [hpv] at hsh
        dsimp only at hsh
        rw [if_pos htv] at hsh
        cases hsh
      | arr l =>
        exfalso
        unfold pagesShapeOk at hsh
        rw [hpv] at hsh
        dsimp only at hsh
        rw [if_pos htv] at hsh
        cases hsh
      | obj ps =>
        cases hcv : getKey fs "context" with
        | none =>
          refine transformFields_idem_noCtx fs ps hnd hpv ?_
          intro cv hc
          rw [hcv] at hc
          cases hc
        | some cv =>
          by_cases hcvt : truthy cv = true
          · have hall : ∀ p ∈ ps, ∃ pfs, p.2 = JVal.obj pfs ∧ nodupKeys pfs = true := by
              unfold pagesShapeOk at hsh
              rw [hpv] at hsh
              dsimp only at hsh
              rw [if_pos htv] at hsh
              rw [hcv] at hsh
              dsimp only at hsh
              rw [if_pos hcvt] at hsh
              intro p hp
              have hmem := List.all_eq_true.mp hsh p hp
              cases hp2 : p.2 with
              | obj pfs =>
                refine ⟨pfs, rfl, ?_⟩
                rw [hp2] at hmem
                exact hmem
              | null =>
                rw [hp2] at hmem
                cases hmem
              | bool b =>
                rw [hp2] at hmem
                cases hmem
              | num n =>
                rw [hp2] at hmem
                cases hmem
              | str s =>
                rw [hp2] at hmem
                cases hmem
              | arr l =>
                rw [hp2] at hmem
                cases hmem
            exact transformFields_idem_ctx fs ps cv hnd hpv hcv hcvt hall
          · refine transformFields_idem_noCtx fs ps hnd hpv ?_
            intro cv' hc
            rw [hcv] at hc
            injection hc with he
            rw [← he]
            cases hcb : truthy cv
            · rfl
            · exact absurd hcb hcvt
    · have hc : contextStep fs = fs := by
        unfold contextStep
        rw [hpv]
        cases getKey fs "context" with
        | none => rfl
        | some cv =>
          dsimp only
          rw [if_neg]
          intro hx
          exact htv (Bool.and_eq_true _ _ |>.mp hx).2
      have hp : pagesStep fs = fs := by
        unfold pagesStep
        rw [hpv]
        dsimp only
        rw [if_neg htv]
      have hT : transformFields fs = fs := by
        unfold transformFields
        rw [hc, hp]
      rw [hT, hT]

/-- After `config.default || config` resolves, the surviving object must
not itself carry a truthy `default` key (a nested `default` breaks
idempotence — see the counterexample below). -/
def defaultOk (c : JVal) : Bool :=
  match extractDefault c with
  | .obj fs => !truthy ((getKey fs "default").getD .null)
  | _ => true

/-- The modelled-domain restriction at the whole-value level. -/
def normalizeDomainOk (c : JVal) : Bool :=
  match extractDefault c with
  | .obj fs => nodupKeys fs && pagesShapeOk fs
  | _ => true

theorem normalizeConfig_idem (c : JVal) (hdom : normalizeDomainOk c = true)
    (hdef : defaultOk c = true) :
    normalizeConfig (normalizeConfig c) = normalizeConfig c := by
  unfold normalizeConfig
  cases hed : extractDefault c with
  | null => rfl
  | bool b => rfl
  | num n => rfl
  | str s => rfl
  | arr l => rfl
  | obj fs =>
    dsimp only
    have hdef' : ¬ truthy ((getKey fs "default").getD .null) = true := by
      unfold defaultOk at hdef
      rw [hed] at hdef
      simpa using hdef
    have hfs := by
      unfold normalizeDomainOk at hdom
      rw [hed] at hdom
      exact Bool.and_eq_true _ _ |>.mp hdom
    have hTd : getKey (transformFields fs) "default" = getKey fs "default" :=
      getKey_transformFields fs "default" (by decide)
    have hex : extractDefault (JVal.obj (transformFields fs))
        = JVal.obj (transformFields fs) := by
      unfold extractDefault
      dsimp only
      rw [hTd]
      cases hgd : getKey fs "default" with
      | none => rfl
      | some d =>
        dsimp only
        rw [if_neg]
        intro hx
        apply hdef'
        rw [hgd]
        exact hx
    rw [hex]
    dsimp only
    rw [transformFields_idem fs hfs.1 hfs.2]

theorem orOpt_none_right (a : Option JVal) : orOpt a none = a := by
  cases a <;> rfl

theorem mem_newKeys_iff (kb ka : List String) (x : String) :
    x ∈ newKeys ka kb ↔ x ∈ kb ∧ x ∉ ka := by
  induction kb generalizing ka with
  | nil => simp [newKeys]
  | cons k rest ih =>
    rw [show newKeys ka (k :: rest)
          = if k ∈ ka then newKeys ka rest else k :: newKeys (ka ++ [k]) rest from rfl]
    by_cases hk : k ∈ ka
    · rw [if_pos hk, ih]
      constructor
      · rintro ⟨h1, h2⟩
        exact ⟨List.mem_cons_of_mem k h1, h2⟩
      · rintro ⟨h1, h2⟩
        rcases List.mem_cons.1 h1 with he | hr
        · exact absurd (he ▸ hk) h2
        · exact ⟨hr, h2⟩
    · rw [if_neg hk]
      constructor
      · intro h
        rcases List.mem_cons.1 h with he | hr
        · exact ⟨he ▸ List.mem_cons_self k rest, he ▸ hk⟩
        · rcases (ih (ka ++ [k])).1 hr with ⟨h1, h2⟩
          refine ⟨List.mem_cons_of_mem k h1, fun hx => h2 (List.mem_append_left _ hx)⟩
      · rintro ⟨h1, h2⟩
        rcases List.mem_cons.1 h1 with he | hr
        · exact he ▸ List.mem_cons_self k _
        · by_cases hxk : x = k
          · exact hxk ▸ List.mem_cons_self k _
          · refine List.mem_cons_of_mem k ((ih (ka ++ [k])).2 ⟨hr, ?_⟩)
            intro hx
            rcases List.mem_append.1 hx with hm | hm
            · exact h2 hm
            · exact hxk (List.mem_singleton.1 hm)

theorem mem_keys_rebuildPages (hs : Bool) (l : List (String × JVal)) (k' : String) :
    k' ∈ keysOf (rebuildPages hs l) ↔ ∃ k ∈ keysOf l, k' = rewriteKey hs k := by
  rw [rebuildPages_eq_spreadInto, keysOf_spreadInto]
  rw [show keysOf ([] : List (String × JVal)) = [] from rfl, List.nil_append]
  rw [mem_newKeys_iff]
  simp only [List.not_mem_nil, not_false_iff, and_true]
  rw [show keysOf (l.map (fun p => (rewriteKey hs p.1, p.2)))
        = l.map (fun p => rewriteKey hs p.1) from by
      unfold keysOf
      rw [List.map_map]
      rfl]
  constructor
  · intro h
    rcases List.mem_map.1 h with ⟨p, hp, he⟩
    exact ⟨p.1, List.mem_map_of_mem Prod.fst hp, he.symm⟩
  · rintro ⟨k, hk, he⟩
    rcases List.mem_map.1 hk with ⟨p, hp, hpe⟩
    exact List.mem_map.2 ⟨p, hp, by rw [hpe, he]⟩

/-- The property read `config[k]` on a whole configuration value. -/
def topGet (c : JVal) (k : String) : Option JVal :=
  match c with
  | .obj fs => getKey fs k
  | _ => none

/-- The key list of the `pages` namespace of a configuration, in order. -/
def pagesKeysOf (c : JVal) : List String :=
  match topGet c "pages" with
  | some (.obj ps) => keysOf ps
  | _ => []

theorem normalizeConfig_obj (fs : List (String × JVal))
    (hext : extractDefault (JVal.obj fs) = JVal.obj fs) :
    normalizeConfig (JVal.obj fs) = JVal.obj (transformFields fs) := by
  unfold normalizeConfig
  rw [hext]

theorem keysOf_map_mergeContextInto (cv : JVal) (ps : List (String × JVal)) :
    keysOf (ps.map (mergeContextInto cv)) = keysOf ps := by
  unfold keysOf
  rw [List.map_map]
  apply List.map_congr_left
  intro p _
  exact mergeContextInto_fst cv p

theorem topGet_normalize_pages_ctx (fs ps : List (String × JVal)) (cv : JVal)
    (hext : extractDefault (JVal.obj fs) = JVal.obj fs)
    (hcv : getKey fs "context" = some cv) (hcvt : truthy cv = true)
    (hpv : getKey fs "pages" = some (JVal.obj ps)) :
    topGet (normalizeConfig (JVal.obj fs)) "pages"
      = some (JVal.obj (rebuildPages (htmlSuffixOf fs) (ps.map (mergeContextInto cv)))) := by
  rw [normalizeConfig_obj fs hext]
  rw [show topGet (JVal.obj (transformFields fs)) "pages"
        = getKey (transformFields fs) "pages" from rfl]
  have hcs : contextStep fs
      = setKey fs "pages" (JVal.obj (ps.map (mergeContextInto cv))) := by
    unfold contextStep
    rw [hcv, hpv]
    dsimp only
    rw [if_pos (by rw [hcvt]; rfl)]
  have hgpages : getKey (setKey fs "pages"
      (JVal.obj (ps.map (mergeContextInto cv)))) "pages"
      = some (JVal.obj (ps.map (mergeContextInto cv))) := by
    rw [getKey_setKey, if_pos rfl]
  have hges : getKey (setKey fs "pages"
      (JVal.obj (ps.map (mergeContextInto cv)))) "exportStatic"
      = getKey fs "exportStatic" := by
    rw [getKey_setKey, if_neg (by decide)]
  unfold transformFields
  rw [hcs]
  unfold pagesStep
  rw [hgpages]
  dsimp only
  rw [if_pos (show truthy (JVal.obj (ps.map (mergeContextInto cv))) = true from rfl)]
  rw [getKey_setKey, if_pos rfl, htmlSuffixOf_congr fs _ hges]
  rfl

theorem topGet_normalize_pages_noCtx (fs ps : List (String × JVal))
    (hext : extractDefault (JVal.obj fs) = JVal.obj fs)
    (hskip : ∀ cv, getKey fs "context" = some cv → truthy cv = false)
    (hpv : getKey fs "pages" = some (JVal.obj ps)) :
    topGet (normalizeConfig (JVal.obj fs)) "pages"
      = some (JVal.obj (rebuildPages (htmlSuffixOf fs) ps)) := by
  rw [normalizeConfig_obj fs hext]
  rw [show topGet (JVal.obj (transformFields fs)) "pages"
        = getKey (transformFields fs) "pages" from rfl]
  unfold transformFields
  rw [contextStep_skip fs hskip]
  unfold pagesStep
  rw [hpv]
  dsimp only
  rw [if_pos (show truthy (JVal.obj ps) = true from rfl)]
  rw [getKey_setKey, if_pos rfl]
  rfl

/-! Claim C4: idempotence of `normalizeConfig`. -/

/-- C4 counterexample: the claim "normalize(normalize(x)) equals
normalize(x) for every configuration object x" fails at the concrete
input `{default: {default: true}}` — the `config.default || config`
unwrapping at the top of `normalizeConfig` strips one `default` layer
per call, so the first call yields `{default: true}` and the second
yields `true`. -/
theorem claim4_counterexample :
    normalizeConfig (normalizeConfig
        (JVal.obj [("default", JVal.obj [("default", JVal.bool true)])]))
      ≠ normalizeConfig (JVal.obj [("default", JVal.obj [("default", JVal.bool true)])]) := by
  intro h
  rw [show normalizeConfig (normalizeConfig
        (JVal.obj [("default", JVal.obj [("default", JVal.bool true)])]))
      = JVal.bool true from rfl] at h
  rw [show normalizeConfig (JVal.obj [("default", JVal.obj [("default", JVal.bool true)])])
      = JVal.obj [("default", JVal.bool true)] from rfl] at h
  exact JVal.noConfusion h

/-- C4 (amended): `normalizeConfig` is idempotent for every configuration
value in the modelled domain (`normalizeDomainOk`: the object that
survives the `config.default || config` unwrapping has duplicate-free
keys and a well-shaped `pages` namespace) whose surviving object does
not itself carry a truthy `default` key (`defaultOk`).  The nested
`default` restriction is exactly what the counterexample forces. -/
theorem claim4_amended (x : JVal) (hdom : normalizeDomainOk x = true)
    (hdef : defaultOk x = true) :
    normalizeConfig (normalizeConfig x) = normalizeConfig x :=
  normalizeConfig_idem x hdom hdef

/-- C4 witness: the amended idempotence theorem applied at a concrete
configuration exercising context propagation and the pages patch. -/
theorem claim4_witness :
    (normalizeDomainOk (JVal.obj [("context", JVal.obj [("x", JVal.num 1)]),
        ("pages", JVal.obj [("a", JVal.obj []), ("b/", JVal.obj [])]),
        ("exportStatic", JVal.obj [("htmlSuffix", JVal.bool true)])]) = true
      ∧ defaultOk (JVal.obj [("context", JVal.obj [("x", JVal.num 1)]),
        ("pages", JVal.obj [("a", JVal.obj []), ("b/", JVal.obj [])]),
        ("exportStatic", JVal.obj [("htmlSuffix", JVal.bool true)])]) = true)
    ∧ normalizeConfig (normalizeConfig (JVal.obj [("context", JVal.obj [("x", JVal.num 1)]),
        ("pages", JVal.obj [("a", JVal.obj []), ("b/", JVal.obj [])]),
        ("exportStatic", JVal.obj [("htmlSuffix", JVal.bool true)])]))
      = normalizeConfig (JVal.obj [("context", JVal.obj [("x", JVal.num 1)]),
        ("pages", JVal.obj [("a", JVal.obj []), ("b/", JVal.obj [])]),
        ("exportStatic", JVal.obj [("htmlSuffix", JVal.bool true)])]) :=
  ⟨⟨by decide, by decide⟩,
    claim4_amended (JVal.obj [("context", JVal.obj [("x", JVal.num 1)]),
      ("pages", JVal.obj [("a", JVal.obj []), ("b/", JVal.obj [])]),
      ("exportStatic", JVal.obj [("htmlSuffix", JVal.bool true)])])
      (by decide) (by decide)⟩

/-! Claim C5: the concrete pages-normalization example. -/

/-- C5 counterexample: normalizing
`{pages:{index:{}, '/about':{}}, exportStatic:{htmlSuffix:true}}` does
not yield the key set `{'/index.html', '/about'}`: the suffix guard on
lines 37-41 tests only how the key ends, so the already-slashed key
`/about` also receives the `.html` suffix. -/
theorem claim5_counterexample :
    pagesKeysOf (normalizeConfig (JVal.obj
        [("pages", JVal.obj [("index", JVal.obj []), ("/about", JVal.obj [])]),
         ("exportStatic", JVal.obj [("htmlSuffix", JVal.bool true)])]))
      ≠ ["/index.html", "/about"] := by
  decide

/-- C5 (amended): the same input yields exactly the keys
`/index.html` and `/about.html`, in that order. -/
theorem claim5_amended :
    pagesKeysOf (normalizeConfig (JVal.obj
        [("pages", JVal.obj [("index", JVal.obj []), ("/about", JVal.obj [])]),
         ("exportStatic", JVal.obj [("htmlSuffix", JVal.bool true)])]))
      = ["/index.html", "/about.html"] := by
  decide

/-! Claim C6: every `pages` key is rewritten by the suffix/slash rule. -/

/-- C6: for every configuration object (that the `default` unwrapping
leaves unchanged, in the modelled domain) with a `pages` namespace, the
normalized configuration's `pages` keys are exactly the images of the
original keys under the per-key rewrite: append `.html` when
`exportStatic.htmlSuffix` is in force and the key ends in neither `/`
nor `.html`, then unconditionally ensure a leading `/`. -/
theorem claim6_pages_keys (fs ps : List (String × JVal))
    (hext : extractDefault (JVal.obj fs) = JVal.obj fs)
    (_hsh : pagesShapeOk fs = true)
    (hpv : getKey fs "pages" = some (JVal.obj ps)) :
    ∃ rps, topGet (normalizeConfig (JVal.obj fs)) "pages" = some (JVal.obj rps)
      ∧ ∀ k', k' ∈ keysOf rps ↔ ∃ k ∈ keysOf ps, k' = rewriteKey (htmlSuffixOf fs) k := by
  cases hcv : getKey fs "context" with
  | none =>
    refine ⟨rebuildPages (htmlSuffixOf fs) ps,
      topGet_normalize_pages_noCtx fs ps hext
        (fun cv hc => by rw [hcv] at hc; cases hc) hpv, ?_⟩
    intro k'
    exact mem_keys_rebuildPages _ _ _
  | some cv =>
    by_cases hcvt : truthy cv = true
    · refine ⟨rebuildPages (htmlSuffixOf fs) (ps.map (mergeContextInto cv)),
        topGet_normalize_pages_ctx fs ps cv hext hcv hcvt hpv, ?_⟩
      intro k'
      rw [mem_keys_rebuildPages, keysOf_map_mergeContextInto]
    · refine ⟨rebuildPages (htmlSuffixOf fs) ps,
        topGet_normalize_pages_noCtx fs ps hext ?_ hpv, ?_⟩
      · intro cv' hc
        rw [hcv] at hc
        injection hc with he
        rw [← he]
        cases hcb : truthy cv
        · rfl
        · exact absurd hcb hcvt
      · intro k'
        exact mem_keys_rebuildPages _ _ _

/-- C6 witness: the rewrite characterization applied at the C5 input. -/
theorem claim6_witness :
    (extractDefault (JVal.obj
        [("pages", JVal.obj [("index", JVal.obj []), ("/about", JVal.obj [])]),
         ("exportStatic", JVal.obj [("htmlSuffix", JVal.bool true)])])
      = JVal.obj [("pages", JVal.obj [("index", JVal.obj []), ("/about", JVal.obj [])]),
         ("exportStatic", JVal.obj [("htmlSuffix", JVal.bool true)])]
      ∧ pagesShapeOk [("pages", JVal.obj [("index", JVal.obj []), ("/about", JVal.obj [])]),
         ("exportStatic", JVal.obj [("htmlSuffix", JVal.bool true)])] = true)
    ∧ ∃ rps, topGet (normalizeConfig (JVal.obj
        [("pages", JVal.obj [("index", JVal.obj []), ("/about", JVal.obj [])]),
         ("exportStatic", JVal.obj [("htmlSuffix", JVal.bool true)])])) "pages"
        = some (JVal.obj rps)
      ∧ ∀ k', k' ∈ keysOf rps
          ↔ ∃ k ∈ keysOf [("index", JVal.obj []), ("/about", JVal.obj [])],
              k' = rewriteKey (htmlSuffixOf
                [("pages", JVal.obj [("index", JVal.obj []), ("/about", JVal.obj [])]),
                 ("exportStatic", JVal.obj [("htmlSuffix", JVal.bool true)])]) k :=
  ⟨⟨rfl, by decide⟩,
    claim6_pages_keys _ [("index", JVal.obj []), ("/about", JVal.obj [])]
      rfl (by decide) rfl⟩

/-! Claim C7: context propagation into page entries. -/

/-- Domain restriction for the context-merge statement: every page entry
is an object whose own `context`, when present, is an object with
duplicate-free keys. -/
def pageEntriesOk (ps : List (String × JVal)) : Bool :=
  ps.all (fun p => match p.2 with
    | .obj pfs =>
      match getKey pfs "context" with
      | none => true
      | some (.obj pcs) => nodupKeys pcs
      | some _ => false
    | _ => false)

/-- C7: when both a truthy `context` object and a `pages` object exist,
every entry of the normalized `pages` is a page whose `context` field is
the top-level context shallow-merged underneath the page's own context:
for every key, the page's own context wins when it binds the key and the
top-level context's binding is inherited otherwise (in particular a page
without its own context inherits the whole top-level context). -/
theorem claim7_context_merge (fs ps cfs : List (String × JVal))
    (hext : extractDefault (JVal.obj fs) = JVal.obj fs)
    (hcv : getKey fs "context" = some (JVal.obj cfs))
    (hcnd : nodupKeys cfs = true)
    (hpv : getKey fs "pages" = some (JVal.obj ps))
    (hpsh : pageEntriesOk ps = true) :
    ∃ rps, topGet (normalizeConfig (JVal.obj fs)) "pages" = some (JVal.obj rps)
      ∧ ∀ q ∈ rps, ∃ p ∈ ps, ∃ pfs, p.2 = JVal.obj pfs
          ∧ q.1 = rewriteKey (htmlSuffixOf fs) p.1
          ∧ ∃ mctx, q.2 = JVal.obj (setKey pfs "context" (JVal.obj mctx))
              ∧ ∀ k, getKey mctx k
                  = orOpt (getKey (spreadFields ((getKey pfs "context").getD JVal.null)) k)
                          (getKey cfs k) := by
  refine ⟨rebuildPages (htmlSuffixOf fs) (ps.map (mergeContextInto (JVal.obj cfs))),
    topGet_normalize_pages_ctx fs ps (JVal.obj cfs) hext hcv rfl hpv, ?_⟩
  intro q hq
  rcases mem_rebuildPages _ _ q hq with ⟨pg, hpg, he⟩
  rcases List.mem_map.1 hpg with ⟨p, hp, hpe⟩
  have hshape := List.all_eq_true.mp hpsh p hp
  cases hp2 : p.2 with
  | obj pfs =>
    have hpg1 : pg.1 = p.1 := by
      rw [← hpe]
      exact mergeContextInto_fst _ p
    have hp0e : (p.1, JVal.obj pfs) = p := by
      rw [← hp2]
    refine ⟨p, hp, pfs, hp2, ?_, ?_⟩
    · rw [he]
      show rewriteKey (htmlSuffixOf fs) pg.1 = rewriteKey (htmlSuffixOf fs) p.1
      rw [hpg1]
    · refine ⟨objLit2 (spreadFields (JVal.obj cfs))
        (spreadFields ((getKey pfs "context").getD JVal.null)), ?_, ?_⟩
      · rw [he]
        show pg.2 = _
        rw [← hpe, ← hp0e]
        rfl
      · intro k
        unfold objLit2
        rw [getKey_spreadInto]
        rw [show spreadFields (JVal.obj cfs) = cfs from rfl]
        rw [getKey_spreadInto]
        rw [show getKey ([] : List (String × JVal)) k = none from rfl]
        rw [orOpt_none_right]
        rw [lastKey_eq_getKey cfs k hcnd]
        congr 1
        apply lastKey_eq_getKey
        rw [hp2] at hshape
        dsimp only at hshape
        cases hpc : getKey pfs "context" with
        | none => rfl
        | some pcv =>
          cases pcv with
          | obj pcs =>
            rw [hpc] at hshape
            dsimp only at hshape
            exact hshape
          | null => rfl
          | bool b => rfl
          | num n => rfl
          | str s => rfl
          | arr l => rfl
  | null =>
    rw [hp2] at hshape
    cases hshape
  | bool b =>
    rw [hp2] at hshape
    cases hshape
  | num n =>
    rw [hp2] at hshape
    cases hshape
  | str s =>
    rw [hp2] at hshape
    cases hshape
  | arr l =>
    rw [hp2] at hshape
    cases hshape

/-- C7 witness: context propagation at the spec's own example
`{context:{x:1}, pages:{'/a':{context:{x:2}}, '/b':{}}}`. -/
theorem claim7_witness :
    (extractDefault (JVal.obj [("context", JVal.obj [("x", JVal.num 1)]),
        ("pages", JVal.obj [("/a", JVal.obj [("context", JVal.obj [("x", JVal.num 2)])]),
                            ("/b", JVal.obj [])])])
      = JVal.obj [("context", JVal.obj [("x", JVal.num 1)]),
        ("pages", JVal.obj [("/a", JVal.obj [("context", JVal.obj [("x", JVal.num 2)])]),
                            ("/b", JVal.obj [])])]
      ∧ pageEntriesOk [("/a", JVal.obj [("context", JVal.obj [("x", JVal.num 2)])]),
                       ("/b", JVal.obj [])] = true)
    ∧ ∃ rps, topGet (normalizeConfig (JVal.obj [("context", JVal.obj [("x", JVal.num 1)]),
        ("pages", JVal.obj [("/a", JVal.obj [("context", JVal.obj [("x", JVal.num 2)])]),
                            ("/b", JVal.obj [])])])) "pages" = some (JVal.obj rps)
      ∧ ∀ q ∈ rps, ∃ p ∈ [("/a", JVal.obj [("context", JVal.obj [("x", JVal.num 2)])]),
                          ("/b", JVal.obj [])], ∃ pfs, p.2 = JVal.obj pfs
          ∧ q.1 = rewriteKey (htmlSuffixOf [("context", JVal.obj [("x", JVal.num 1)]),
              ("pages", JVal.obj [("/a", JVal.obj [("context", JVal.obj [("x", JVal.num 2)])]),
                                  ("/b", JVal.obj [])])]) p.1
          ∧ ∃ mctx, q.2 = JVal.obj (setKey pfs "context" (JVal.obj mctx))
              ∧ ∀ k, getKey mctx k
                  = orOpt (getKey (spreadFields ((getKey pfs "context").getD JVal.null)) k)
                          (getKey [("x", JVal.num 1)] k) :=
  ⟨⟨rfl, by decide⟩,
    claim7_context_merge [("context", JVal.obj [("x", JVal.num 1)]),
        ("pages", JVal.obj [("/a", JVal.obj [("context", JVal.obj [("x", JVal.num 2)])]),
                            ("/b", JVal.obj [])])]
      [("/a", JVal.obj [("context", JVal.obj [("x", JVal.num 2)])]), ("/b", JVal.obj [])]
      [("x", JVal.num 1)] rfl rfl (by decide) rfl (by decide)⟩

/-! The file resolution, validation and unknown-key stages of
`UserConfig.getConfig` (lines 135-218).  File system and module-loader
effects are inputs: a file slot is `none` when the file does not exist,
`some (Except.ok v)` when the module loads to the value `v`, and
`some (Except.error msg)` when loading throws. -/

/-- Errors thrown by `getConfig`: a config-file parse error (the
throwing `onError` of lines 164-172), a schema-validation error (line
196), or an unknown top-level key (line 213). -/
inductive ConfigError where
  | parseError (msg : String)
  | validateError (name msg : String)
  | unknownKey (key : String)

/-- `requireFile` (lines 72-89) with the throwing `onError` that the
instance `getConfig` installs for the base file (lines 164-175): a
missing file yields `{}`; a loaded module value is normalized after the
falsy-module guard `require(filePath) || {}` (line 84); a load error
propagates. -/
def requireFileThrow (file : Option (Except String JVal)) : Except String JVal :=
  match file with
  | none => .ok (.obj [])
  | some (.ok v) => .ok (normalizeConfig (if truthy v then v else .obj []))
  | some (.error e) => .error e

/-- `requireFile` with the default `onError` (lines 77-82), as used for
the environment-specific and local override files (lines 176-177): a
load error is logged and replaced by `{}`. -/
def requireFileQuiet (file : Option (Except String JVal)) : JVal :=
  match file with
  | none => .obj []
  | some (.ok v) => normalizeConfig (if truthy v then v else .obj [])
  | some (.error _) => .obj []

/-- The resolution of lines 174-178: spread the base file, then the
environment override (only when the environment name is set), then the
local override (only in development), into one object literal, and
normalize the result. -/
def resolveStage (base env localFile : Option (Except String JVal))
    (envSet isDev : Bool) : Except ConfigError JVal :=
  match requireFileThrow base with
  | .error e => .error (.parseError e)
  | .ok b =>
    .ok (normalizeConfig (.obj (spreadInto (spreadInto (spreadInto []
      (spreadFields b))
      (if envSet then spreadFields (requireFileQuiet env) else []))
      (if isDev then spreadFields (requireFileQuiet localFile) else []))))

/-- A schema plugin as `getConfig` consumes it: a namespace name, an
optional validator (returning the thrown message, `none` for success),
and whether it defines an `onChange` hook. -/
structure Plugin where
  name : String
  validate? : Option (JVal → Option String)
  hasOnChange : Bool

/-- The validation loop of lines 185-199: the first plugin whose
namespace value is truthy and whose validator rejects determines the
error (name, message). -/
def validateLoop : List Plugin → JVal → Option (String × String)
  | [], _ => none
  | p :: ps, config =>
    match p.validate? with
    | some f =>
      if truthy ((topGet config p.name).getD .null) then
        match f ((topGet config p.name).getD .null) with
        | some msg => some (p.name, msg)
        | none => validateLoop ps config
      else validateLoop ps config
    | none => validateLoop ps config

/-- The top-level key list of a configuration (`Object.keys(config)`;
non-object configurations are outside the modelled domain). -/
def topKeys (c : JVal) : List String :=
  match c with
  | .obj fs => keysOf fs
  | _ => []

/-- The unknown-key scan of lines 202-215: `forEach` throws at the first
top-level key that no plugin owns. -/
def unknownKeyCheck (names : List String) : List String → Option String
  | [] => none
  | k :: ks => if names.contains k then unknownKeyCheck names ks else some k

/-- Observable outcome of one `getConfig` call: the value the caller's
`setConfig` callback was invoked with (if it was), and the returned
configuration or thrown error. -/
structure GetConfigOutcome where
  setConfigArg : Option JVal
  result : Except ConfigError JVal

/-- Lines 185-217: validate each owned namespace, then scan for unknown
keys; both failure paths first invoke the caller's `setConfig` with the
resolved config (lines 191-194 and 205-207) and then throw. -/
def validateStage (plugins : List Plugin) (setConfigProvided : Bool)
    (config : JVal) : GetConfigOutcome :=
  match validateLoop plugins config with
  | some nm =>
    ⟨if setConfigProvided then some config else none,
     .error (.validateError nm.1 nm.2)⟩
  | none =>
    match unknownKeyCheck (plugins.map Plugin.name) (topKeys config) with
    | some key =>
      ⟨if setConfigProvided then some config else none, .error (.unknownKey key)⟩
    | none => ⟨none, .ok config⟩

/-- The instance `getConfig` (lines 135-218) as a function of one
cycle's inputs.  `fileFound` models `getConfigFile` (lines 141-145; no
base file short-circuits to `{}`).  The host's
`applyPlugins('modifyConfig')` hook (lines 180-182) is modelled as the
identity, and the `force` cache eviction (lines 148-158) has no
observable effect here because file loads are already explicit inputs. -/
def getConfigRun (fileFound : Bool) (base env localFile : Option (Except String JVal))
    (envSet isDev : Bool) (plugins : List Plugin) (setConfigProvided : Bool) :
    GetConfigOutcome :=
  if fileFound = false then ⟨none, .ok (.obj [])⟩
  else
    match resolveStage base env localFile envSet isDev with
    | .error e => ⟨none, .error e⟩
    | .ok config => validateStage plugins setConfigProvided config

theorem extractDefault_of_none (fs : List (String × JVal))
    (h : getKey fs "default" = none) : extractDefault (JVal.obj fs) = JVal.obj fs := by
  unfold extractDefault
  dsimp only
  rw [h]

theorem lastKey_none_of_getKey_none (l : List (String × JVal)) (k : String)
    (h : getKey l k = none) : lastKey l k = none := by
  induction l with
  | nil => rfl
  | cons p rest ih =>
    cases p with
    | mk pk pv =>
      by_cases hpk : pk = k
      · rw [show getKey ((pk, pv) :: rest) k = if pk = k then some pv else getKey rest k
            from rfl, if_pos hpk] at h
        cases h
      · rw [show getKey ((pk, pv) :: rest) k = if pk = k then some pv else getKey rest k
            from rfl, if_neg hpk] at h
        rw [show lastKey ((pk, pv) :: rest) k
              = orOpt (lastKey rest k) (if pk = k then some pv else none) from rfl]
        rw [ih h, if_neg hpk]
        rfl

theorem lastKey_if (b : Bool) (l : List (String × JVal)) (k : String) :
    lastKey (if b then l else []) k = if b then lastKey l k else none := by
  cases b <;> rfl

/-- C8: the three configuration files are shallow-merged in precedence
order base, environment override (only when the environment name is
set), local override (only in development); for every top-level
namespace other than `pages` (whose value normalization rewrites), the
resolved value is the last-loaded file's value for it, whole — no deep
merge. -/
theorem claim8_merge_precedence (bfs efs lfs : List (String × JVal))
    (envSet isDev : Bool)
    (hbnd : nodupKeys bfs = true) (hend : nodupKeys efs = true)
    (hlnd : nodupKeys lfs = true)
    (hbd : getKey bfs "default" = none) (hed : getKey efs "default" = none)
    (hld : getKey lfs "default" = none)
    (k : String) (hk : k ≠ "pages") :
    ∃ cfg, resolveStage (some (.ok (.obj bfs))) (some (.ok (.obj efs)))
        (some (.ok (.obj lfs))) envSet isDev = .ok cfg
      ∧ topGet cfg k
          = orOpt (if isDev then getKey lfs k else none)
              (orOpt (if envSet then getKey efs k else none) (getKey bfs k)) := by
  have hTb := normalizeConfig_obj bfs (extractDefault_of_none bfs hbd)
  have hTe := normalizeConfig_obj efs (extractDefault_of_none efs hed)
  have hTl := normalizeConfig_obj lfs (extractDefault_of_none lfs hld)
  have hres : resolveStage (some (.ok (.obj bfs))) (some (.ok (.obj efs)))
      (some (.ok (.obj lfs))) envSet isDev
      = .ok (normalizeConfig (JVal.obj (spreadInto (spreadInto (spreadInto []
          (transformFields bfs))
          (if envSet then transformFields efs else []))
          (if isDev then transformFields lfs else [])))) := by
    unfold resolveStage
    rw [show requireFileThrow (some (.ok (.obj bfs)))
          = .ok (normalizeConfig (JVal.obj bfs)) from rfl]
    dsimp only
    rw [show requireFileQuiet (some (.ok (.obj efs)))
          = normalizeConfig (JVal.obj efs) from rfl]
    rw [show requireFileQuiet (some (.ok (.obj lfs)))
          = normalizeConfig (JVal.obj lfs) from rfl]
    rw [hTb, hTe, hTl]
    rfl
  have hgm : ∀ k', getKey (spreadInto (spreadInto (spreadInto []
      (transformFields bfs))
      (if envSet then transformFields efs else []))
      (if isDev then transformFields lfs else [])) k'
      = orOpt (if isDev then lastKey (transformFields lfs) k' else none)
          (orOpt (if envSet then lastKey (transformFields efs) k' else none)
            (lastKey (transformFields bfs) k')) := by
    intro k'
    rw [getKey_spreadInto, getKey_spreadInto, getKey_spreadInto]
    rw [lastKey_if, lastKey_if]
    rw [show getKey ([] : List (String × JVal)) k' = none from rfl]
    rw [orOpt_none_right]
  have hmdef : getKey (spreadInto (spreadInto (spreadInto []
      (transformFields bfs))
      (if envSet then transformFields efs else []))
      (if isDev then transformFields lfs else [])) "default" = none := by
    rw [hgm]
    have hb0 : lastKey (transformFields bfs) "default" = none :=
      lastKey_none_of_getKey_none _ _
        (by rw [getKey_transformFields bfs "default" (by decide)]; exact hbd)
    have he0 : lastKey (transformFields efs) "default" = none :=
      lastKey_none_of_getKey_none _ _
        (by rw [getKey_transformFields efs "default" (by decide)]; exact hed)
    have hl0 : lastKey (transformFields lfs) "default" = none :=
      lastKey_none_of_getKey_none _ _
        (by rw [getKey_transformFields lfs "default" (by decide)]; exact hld)
    rw [hb0, he0, hl0]
    cases envSet <;> cases isDev <;> rfl
  refine ⟨_, hres, ?_⟩
  rw [normalizeConfig_obj _ (extractDefault_of_none _ hmdef)]
  rw [show topGet (JVal.obj (transformFields (spreadInto (spreadInto (spreadInto []
        (transformFields bfs))
        (if envSet then transformFields efs else []))
        (if isDev then transformFields lfs else [])))) k
      = getKey (transformFields (spreadInto (spreadInto (spreadInto []
        (transformFields bfs))
        (if envSet then transformFields efs else []))
        (if isDev then transformFields lfs else []))) k from rfl]
  rw [getKey_transformFields _ k hk]
  rw [hgm]
  rw [lastKey_eq_getKey _ k (nodupKeys_transformFields bfs hbnd)]
  rw [lastKey_eq_getKey _ k (nodupKeys_transformFields efs hend)]
  rw [lastKey_eq_getKey _ k (nodupKeys_transformFields lfs hlnd)]
  rw [getKey_transformFields bfs k hk, getKey_transformFields efs k hk,
     getKey_transformFields lfs k hk]

/-- C8 witness: the spec's merge example — base `{a:1,b:1}`, environment
override `{b:2}`, local override `{b:3}`, environment set, development
mode — resolves `b` to `3` and `a` to `1`. -/
theorem claim8_witness :
    (nodupKeys [("a", JVal.num 1), ("b", JVal.num 1)] = true
      ∧ nodupKeys [("b", JVal.num 2)] = true
      ∧ nodupKeys [("b", JVal.num 3)] = true
      ∧ getKey [("a", JVal.num 1), ("b", JVal.num 1)] "default" = none
      ∧ getKey [("b", JVal.num 2)] "default" = none
      ∧ getKey [("b", JVal.num 3)] "default" = none)
    ∧ (∃ cfg, resolveStage (some (.ok (.obj [("a", JVal.num 1), ("b", JVal.num 1)])))
        (some (.ok (.obj [("b", JVal.num 2)]))) (some (.ok (.obj [("b", JVal.num 3)])))
        true true = .ok cfg ∧ topGet cfg "b" = some (JVal.num 3))
    ∧ (∃ cfg, resolveStage (some (.ok (.obj [("a", JVal.num 1), ("b", JVal.num 1)])))
        (some (.ok (.obj [("b", JVal.num 2)]))) (some (.ok (.obj [("b", JVal.num 3)])))
        true true = .ok cfg ∧ topGet cfg "a" = some (JVal.num 1)) := by
  refine ⟨⟨by decide, by decide, by decide, rfl, rfl, rfl⟩, ?_, ?_⟩
  · rcases claim8_merge_precedence [("a", JVal.num 1), ("b", JVal.num 1)]
      [("b", JVal.num 2)] [("b", JVal.num 3)] true true
      (by decide) (by decide) (by decide) rfl rfl rfl "b" (by decide) with ⟨cfg, h1, h2⟩
    exact ⟨cfg, h1, by rw [h2]; rfl⟩
  · rcases claim8_merge_precedence [("a", JVal.num 1), ("b", JVal.num 1)]
      [("b", JVal.num 2)] [("b", JVal.num 3)] true true
      (by decide) (by decide) (by decide) rfl rfl rfl "a" (by decide) with ⟨cfg, h1, h2⟩
    exact ⟨cfg, h1, by rw [h2]; rfl⟩

/-- A `getConfig` outcome that failed after resolution: a
schema-validation error or an unknown-key error. -/
def isLateError : Except ConfigError JVal → Bool
  | .error (.validateError _ _) => true
  | .error (.unknownKey _) => true
  | _ => false

theorem resolveStage_error_parse (base env localFile : Option (Except String JVal))
    (envSet isDev : Bool) (e : ConfigError)
    (h : resolveStage base env localFile envSet isDev = .error e) :
    ∃ m, e = ConfigError.parseError m := by
  unfold resolveStage at h
  cases hb : requireFileThrow base with
  | error m =>
    rw [hb] at h
    refine ⟨m, ?_⟩
    injection h with h'
    exact h'.symm
  | ok b =>
    rw [hb] at h
    exact Except.noConfusion h

/-- C9: whenever a `getConfig` call made with a `setConfig` callback
fails with a schema-validation error or an unknown-key error, the
callback has been invoked with the resolved (possibly-partially-valid)
configuration before the throw. -/
theorem claim9_setConfig_on_failure (fileFound : Bool)
    (base env localFile : Option (Except String JVal)) (envSet isDev : Bool)
    (plugins : List Plugin)
    (hlate : isLateError (getConfigRun fileFound base env localFile
        envSet isDev plugins true).result = true) :
    ∃ cfg, resolveStage base env localFile envSet isDev = .ok cfg
      ∧ (getConfigRun fileFound base env localFile
          envSet isDev plugins true).setConfigArg = some cfg := by
  unfold getConfigRun at hlate ⊢
  cases fileFound with
  | false =>
    rw [if_pos rfl] at hlate
    cases hlate
  | true =>
    rw [if_neg (by decide)] at hlate ⊢
    cases hres : resolveStage base env localFile envSet isDev with
    | error e =>
      rcases resolveStage_error_parse base env localFile envSet isDev e hres with ⟨m, he⟩
      rw [hres, he] at hlate
      simp [isLateError] at hlate
    | ok cfg =>
      rw [hres] at hlate
      refine ⟨cfg, rfl, ?_⟩
      dsimp only at hlate ⊢
      unfold validateStage at hlate ⊢
      cases hvl : validateLoop plugins cfg with
      | some nm => rfl
      | none =>
        rw [hvl] at hlate
        cases huk : unknownKeyCheck (plugins.map Plugin.name) (topKeys cfg) with
        | some key => rfl
        | none =>
          rw [huk] at hlate
          simp [isLateError] at hlate

/-- C9 witness: with one plugin owning namespace `a` whose validator
rejects, the failing call reports the resolved config through
`setConfig` before throwing. -/
theorem claim9_witness :
    (isLateError (getConfigRun true (some (.ok (.obj [("a", JVal.num 1)]))) none none
        false false [Plugin.mk "a" (some (fun _ => some "bad")) false] true).result = true)
    ∧ ∃ cfg, resolveStage (some (.ok (.obj [("a", JVal.num 1)]))) none none false false
        = .ok cfg
      ∧ (getConfigRun true (some (.ok (.obj [("a", JVal.num 1)]))) none none
          false false [Plugin.mk "a" (some (fun _ => some "bad")) false] true).setConfigArg
        = some cfg :=
  ⟨rfl, claim9_setConfig_on_failure true (some (.ok (.obj [("a", JVal.num 1)]))) none none
    false false [Plugin.mk "a" (some (fun _ => some "bad")) false] rfl⟩

/-- C10: only a parse error of the base configuration file aborts
resolution (with `setConfig` never invoked); a parse error of the
environment-specific or local-override file is absorbed by the default
handler as an empty object — the whole `getConfig` outcome is the same
as if that override file were absent, so such an error alone never makes
`getConfig` fail. -/
theorem claim10_override_parse_swallowed :
    (∀ (e : String) (env localFile : Option (Except String JVal)) (envSet isDev : Bool)
        (plugins : List Plugin) (sp : Bool),
        getConfigRun true (some (.error e)) env localFile envSet isDev plugins sp
          = ⟨none, .error (.parseError e)⟩)
    ∧ (∀ (fileFound : Bool) (base localFile : Option (Except String JVal)) (e : String)
        (envSet isDev : Bool) (plugins : List Plugin) (sp : Bool),
        getConfigRun fileFound base (some (.error e)) localFile envSet isDev plugins sp
          = getConfigRun fileFound base none localFile envSet isDev plugins sp)
    ∧ (∀ (fileFound : Bool) (base env : Option (Except String JVal)) (e : String)
        (envSet isDev : Bool) (plugins : List Plugin) (sp : Bool),
        getConfigRun fileFound base env (some (.error e)) envSet isDev plugins sp
          = getConfigRun fileFound base env none envSet isDev plugins sp) := by
  refine ⟨?_, ?_, ?_⟩
  · intro e env localFile envSet isDev plugins sp
    rfl
  · intro fileFound base localFile e envSet isDev plugins sp
    rfl
  · intro fileFound base env e envSet isDev plugins sp
    rfl

/-! The watch-and-reload coordinator (`watchWithDevServer`, lines
224-272).  lodash `isEqual` is modelled by the order-insensitive deep
equality `jvalEq`; namespace values are compared through `Option JVal`
(`nsEq`) because `isEqual(undefined, x)` holds only when `x` is also
`undefined`, while `undefined` and `null` differ. -/

mutual

/-- lodash `isEqual`: deep structural equality, insensitive to object
key order; arrays compare positionally. -/
def jvalEq : JVal → JVal → Bool
  | .null, .null => true
  | .bool a, .bool b => a == b
  | .num a, .num b => a == b
  | .str a, .str b => a == b
  | .arr as, .arr bs => jvalEqList as bs
  | .obj as, .obj bs => jvalSubObj as bs && bs.all (fun p => hasKey as p.1)
  | _, _ => false
termination_by a b => sizeOf a + sizeOf b

/-- Pointwise deep equality of array elements. -/
def jvalEqList : List JVal → List JVal → Bool
  | [], [] => true
  | a :: as, b :: bs => jvalEq a b && jvalEqList as bs
  | _, _ => false
termination_by as bs => sizeOf as + sizeOf bs

/-- Every field of the first object is bound, deep-equally, in the
second. -/
def jvalSubObj : List (String × JVal) → List (String × JVal) → Bool
  | [], _ => true
  | (k, v) :: rest, bs => jvalFind k v bs && jvalSubObj rest bs
termination_by l bs => sizeOf l + sizeOf bs

/-- Is the key bound in the field list with a deep-equal value. -/
def jvalFind (k : String) (v : JVal) : List (String × JVal) → Bool
  | [] => false
  | (k', v') :: rest => if k' = k then jvalEq v v' else jvalFind k v rest
termination_by bs => sizeOf v + sizeOf bs

end

/-- `isEqual(newConfig[name], oldConfig[name])` where a missing
namespace reads as JavaScript `undefined`: two absent namespaces are
equal, an absent and a present one are not. -/
def nsEq (a b : Option JVal) : Bool :=
  match a, b with
  | none, none => true
  | some x, some y => jvalEq x y
  | _, _ => false

/-- The mutable state the watch handler touches: the coordinator's
`configFailed` flag and `this.config` snapshot, the middleware config
sink, the host service's `config` and `_initialConfig` maps, the number
of `service.reload()` calls, and the ordered log of plugin `onChange`
invocations (by namespace name). -/
structure WatchState where
  configFailed : Bool
  config : JVal
  middleware : Option JVal
  svcConfig : List (String × JVal)
  svcInitial : List (String × JVal)
  reloads : Nat
  onChangeCalls : List String

/-- Effect of the `setConfig` callback the watch handler passes to
`getConfig` (lines 238-241): overwrite `this.config` with the value the
pipeline reported. -/
def applySetConfig (arg : Option JVal) (s : WatchState) : WatchState :=
  match arg with
  | some c =>
    WatchState.mk s.configFailed c s.middleware s.svcConfig s.svcInitial
      s.reloads s.onChangeCalls
  | none => s

/-- One iteration of the per-namespace diff loop (lines 256-265): when
the new and old values of the plugin's namespace are not deep-equal,
write the new value into the service's `_initialConfig` and `config`
maps and invoke the plugin's `onChange` when it has one. -/
def diffStep (newConfig oldConfig : JVal) (s : WatchState) (p : Plugin) : WatchState :=
  if nsEq (topGet newConfig p.name) (topGet oldConfig p.name) then s
  else
    WatchState.mk s.configFailed s.config s.middleware
      (setKey s.svcConfig p.name ((topGet newConfig p.name).getD .null))
      (setKey s.svcInitial p.name ((topGet newConfig p.name).getD .null))
      s.reloads
      (s.onChangeCalls ++ if p.hasOnChange then [p.name] else [])

/-- The watch handler of lines 233-271, as a transition on `WatchState`
given the observable outcome of the `getConfig` call: on a throw, mark
`configFailed` (the `setConfig` overwrite, when the pipeline performed
one, has already landed); on success, update the middleware config, do
a recovery `reload` when the previous cycle had failed, snapshot the
old config, accept the new one, and run the per-namespace diff loop. -/
def watchStep (plugins : List Plugin) (outcome : GetConfigOutcome)
    (s : WatchState) : WatchState :=
  match outcome.result with
  | .error _ =>
    let s1 := applySetConfig outcome.setConfigArg s
    WatchState.mk true s1.config s1.middleware s1.svcConfig s1.svcInitial
      s1.reloads s1.onChangeCalls
  | .ok newConfig =>
    let s1 := applySetConfig outcome.setConfigArg s
    let s2 := WatchState.mk s1.configFailed s1.config (some newConfig)
      s1.svcConfig s1.svcInitial s1.reloads s1.onChangeCalls
    let s3 :=
      if s2.configFailed then
        WatchState.mk false s2.config s2.middleware s2.svcConfig s2.svcInitial
          (s2.reloads + 1) s2.onChangeCalls
      else s2
    let s4 := WatchState.mk s3.configFailed newConfig s3.middleware
      s3.svcConfig s3.svcInitial s3.reloads s3.onChangeCalls
    plugins.foldl (diffStep newConfig s3.config) s4

/-- One full watch cycle: the handler always supplies the `setConfig`
callback (lines 236-242), so `getConfig` runs with it provided. -/
def watchCycle (plugins : List Plugin) (fileFound : Bool)
    (base env localFile : Option (Except String JVal)) (envSet isDev : Bool)
    (s : WatchState) : WatchState :=
  watchStep plugins
    (getConfigRun fileFound base env localFile envSet isDev plugins true) s

theorem getConfigRun_setArg_of_ok (fileFound : Bool)
    (base env localFile : Option (Except String JVal)) (envSet isDev : Bool)
    (plugins : List Plugin) (sp : Bool) (c : JVal)
    (h : (getConfigRun fileFound base env localFile envSet isDev plugins sp).result
      = .ok c) :
    (getConfigRun fileFound base env localFile envSet isDev plugins sp).setConfigArg
      = none := by
  unfold getConfigRun at h ⊢
  cases fileFound with
  | false => rfl
  | true =>
    rw [if_neg (by decide)] at h ⊢
    cases hres : resolveStage base env localFile envSet isDev with
    | error e => rfl
    | ok cfg =>
      rw [hres] at h
      dsimp only at h ⊢
      unfold validateStage at h ⊢
      cases hvl : validateLoop plugins cfg with
      | some nm =>
        rw [hvl] at h
        exact Except.noConfusion h
      | none =>
        rw [hvl] at h
        cases huk : unknownKeyCheck (plugins.map Plugin.name) (topKeys cfg) with
        | some key =>
          rw [huk] at h
          exact Except.noConfusion h
        | none => rfl

theorem getConfigRun_setArg_of_parse (fileFound : Bool)
    (base env localFile : Option (Except String JVal)) (envSet isDev : Bool)
    (plugins : List Plugin) (sp : Bool) (m : String)
    (h : (getConfigRun fileFound base env localFile envSet isDev plugins sp).result
      = .error (.parseError m)) :
    (getConfigRun fileFound base env localFile envSet isDev plugins sp).setConfigArg
      = none := by
  unfold getConfigRun at h ⊢
  cases fileFound with
  | false => rfl
  | true =>
    rw [if_neg (by decide)] at h ⊢
    cases hres : resolveStage base env localFile envSet isDev with
    | error e => rfl
    | ok cfg =>
      rw [hres] at h
      dsimp only at h ⊢
      unfold validateStage at h ⊢
      cases hvl : validateLoop plugins cfg with
      | some nm =>
        rw [hvl] at h
        injection h with h'
        exact ConfigError.noConfusion h'
      | none =>
        rw [hvl] at h
        cases huk : unknownKeyCheck (plugins.map Plugin.name) (topKeys cfg) with
        | some key =>
          rw [huk] at h
          injection h with h'
          exact ConfigError.noConfusion h'
        | none => rfl

theorem getConfigRun_late_setArg (fileFound : Bool)
    (base env localFile : Option (Except String JVal)) (envSet isDev : Bool)
    (plugins : List Plugin)
    (hlate : isLateError (getConfigRun fileFound base env localFile
        envSet isDev plugins true).result = true) :
    ∃ cfg, resolveStage base env localFile envSet isDev = .ok cfg
      ∧ (getConfigRun fileFound base env localFile
          envSet isDev plugins true).setConfigArg = some cfg := by
  unfold getConfigRun at hlate ⊢
  cases fileFound with
  | false =>
    rw [if_pos rfl] at hlate
    cases hlate
  | true =>
    rw [if_neg (by decide)] at hlate ⊢
    cases hres : resolveStage base env localFile envSet isDev with
    | error e =>
      rcases resolveStage_error_parse base env localFile envSet isDev e hres with ⟨m, he⟩
      rw [hres, he] at hlate
      simp [isLateError] at hlate
    | ok cfg =>
      rw [hres] at hlate
      refine ⟨cfg, rfl, ?_⟩
      dsimp only at hlate ⊢
      unfold validateStage at hlate ⊢
      cases hvl : validateLoop plugins cfg with
      | some nm => rfl
      | none =>
        rw [hvl] at hlate
        cases huk : unknownKeyCheck (plugins.map Plugin.name) (topKeys cfg) with
        | some key => rfl
        | none =>
          rw [huk] at hlate
          simp [isLateError] at hlate

theorem foldl_diffStep_configFailed (plugins : List Plugin) (n o : JVal)
    (st : WatchState) :
    (plugins.foldl (diffStep n o) st).configFailed = st.configFailed := by
  induction plugins generalizing st with
  | nil => rfl
  | cons p ps ih =>
    rw [List.foldl_cons, ih]
    unfold diffStep
    by_cases h : nsEq (topGet n p.name) (topGet o p.name) = true
    · rw [if_pos h]
    · rw [if_neg h]

theorem foldl_diffStep_reloads (plugins : List Plugin) (n o : JVal)
    (st : WatchState) :
    (plugins.foldl (diffStep n o) st).reloads = st.reloads := by
  induction plugins generalizing st with
  | nil => rfl
  | cons p ps ih =>
    rw [List.foldl_cons, ih]
    unfold diffStep
    by_cases h : nsEq (topGet n p.name) (topGet o p.name) = true
    · rw [if_pos h]
    · rw [if_neg h]

theorem foldl_diffStep_untouched (plugins : List Plugin) (n o : JVal)
    (N : String) (st : WatchState)
    (heq : nsEq (topGet n N) (topGet o N) = true) :
    (∃ added, (plugins.foldl (diffStep n o) st).onChangeCalls
        = st.onChangeCalls ++ added ∧ N ∉ added)
    ∧ getKey (plugins.foldl (diffStep n o) st).svcConfig N = getKey st.svcConfig N
    ∧ getKey (plugins.foldl (diffStep n o) st).svcInitial N = getKey st.svcInitial N := by
  induction plugins generalizing st with
  | nil => exact ⟨⟨[], by simp, by simp⟩, rfl, rfl⟩
  | cons p ps ih =>
    rw [List.foldl_cons]
    by_cases hg : nsEq (topGet n p.name) (topGet o p.name) = true
    · rw [show diffStep n o st p = st from by unfold diffStep; rw [if_pos hg]]
      exact ih st
    · have hpN : p.name ≠ N := by
        intro he
        rw [he] at hg
        exact hg heq
      have hstep : diffStep n o st p
          = WatchState.mk st.configFailed st.config st.middleware
              (setKey st.svcConfig p.name ((topGet n p.name).getD .null))
              (setKey st.svcInitial p.name ((topGet n p.name).getD .null))
              st.reloads
              (st.onChangeCalls ++ if p.hasOnChange then [p.name] else []) := by
        unfold diffStep
        rw [if_neg hg]
      rw [hstep]
      rcases ih (WatchState.mk st.configFailed st.config st.middleware
          (setKey st.svcConfig p.name ((topGet n p.name).getD .null))
          (setKey st.svcInitial p.name ((topGet n p.name).getD .null))
          st.reloads
          (st.onChangeCalls ++ if p.hasOnChange then [p.name] else []))
        with ⟨⟨added, hoc, hnm⟩, hsc, hsi⟩
      refine ⟨⟨(if p.hasOnChange then [p.name] else []) ++ added, ?_, ?_⟩, ?_, ?_⟩
      · rw [hoc]
        dsimp only
        rw [List.append_assoc]
      · intro hmem
        rcases List.mem_append.1 hmem with hm | hm
        · cases hp : p.hasOnChange
          · rw [hp] at hm
            cases hm
          · rw [hp] at hm
            exact hpN (List.mem_singleton.1 hm).symm
        · exact hnm hm
      · rw [hsc]
        dsimp only
        rw [getKey_setKey, if_neg (fun he => hpN he.symm)]
      · rw [hsi]
        dsimp only
        rw [getKey_setKey, if_neg (fun he => hpN he.symm)]

/-! Claim C1: state and `this.config` on a failed reload. -/

/-- C1 (amended): every failed watch-triggered reload transitions the
coordinator to `Failed`; `this.config` is left unchanged when the
failure is a config-file parse error (the throwing `onError` fires
before `setConfig` could run), but on a schema-validation or
unknown-key failure `this.config` has first been overwritten with the
failing resolved configuration through the `setConfig` hook (the code
does this deliberately, line 191 comment, so the next diff compares
against the value that failed). -/
theorem claim1_amended (plugins : List Plugin) (fileFound : Bool)
    (base env localFile : Option (Except String JVal)) (envSet isDev : Bool)
    (s : WatchState) (e : ConfigError)
    (herr : (getConfigRun fileFound base env localFile envSet isDev plugins true).result
      = .error e) :
    (watchCycle plugins fileFound base env localFile envSet isDev s).configFailed = true
    ∧ (∀ m, e = ConfigError.parseError m →
        (watchCycle plugins fileFound base env localFile envSet isDev s).config = s.config)
    ∧ (isLateError (Except.error e) = true →
        ∃ cfg, resolveStage base env localFile envSet isDev = .ok cfg
          ∧ (watchCycle plugins fileFound base env localFile envSet isDev s).config = cfg) := by
  have hc : watchCycle plugins fileFound base env localFile envSet isDev s
      = WatchState.mk true
          (applySetConfig (getConfigRun fileFound base env localFile envSet isDev
            plugins true).setConfigArg s).config
          (applySetConfig (getConfigRun fileFound base env localFile envSet isDev
            plugins true).setConfigArg s).middleware
          (applySetConfig (getConfigRun fileFound base env localFile envSet isDev
            plugins true).setConfigArg s).svcConfig
          (applySetConfig (getConfigRun fileFound base env localFile envSet isDev
            plugins true).setConfigArg s).svcInitial
          (applySetConfig (getConfigRun fileFound base env localFile envSet isDev
            plugins true).setConfigArg s).reloads
          (applySetConfig (getConfigRun fileFound base env localFile envSet isDev
            plugins true).setConfigArg s).onChangeCalls := by
    unfold watchCycle watchStep
    rw [herr]
  refine ⟨by rw [hc], ?_, ?_⟩
  · intro m hm
    have harg := getConfigRun_setArg_of_parse fileFound base env localFile envSet isDev
      plugins true m (by rw [herr, hm])
    rw [hc, harg]
    rfl
  · intro hlate'
    have hl : isLateError (getConfigRun fileFound base env localFile envSet isDev
        plugins true).result = true := by
      rw [herr]
      exact hlate'
    rcases getConfigRun_late_setArg fileFound base env localFile envSet isDev plugins hl
      with ⟨cfg, hres, harg⟩
    refine ⟨cfg, hres, ?_⟩
    rw [hc, harg]
    rfl

/-- C1 counterexample: the claim "every failing reload leaves
`this.config` unchanged" is false.  With one plugin owning `a` whose
validator rejects, a watch cycle over the config `{a: 1}` fails with a
validation error, yet `this.config` has been overwritten from its
previous value (`null` here) to the failing resolved config, via the
`setConfig` invocation on lines 192-194 before the throw. -/
theorem claim1_counterexample :
    (getConfigRun true (some (.ok (.obj [("a", JVal.num 1)]))) none none false false
        [Plugin.mk "a" (some (fun _ => some "bad")) false] true).result
      = .error (.validateError "a" "bad")
    ∧ (watchCycle [Plugin.mk "a" (some (fun _ => some "bad")) false] true
        (some (.ok (.obj [("a", JVal.num 1)]))) none none false false
        (WatchState.mk false JVal.null none [] [] 0 [])).configFailed = true
    ∧ (watchCycle [Plugin.mk "a" (some (fun _ => some "bad")) false] true
        (some (.ok (.obj [("a", JVal.num 1)]))) none none false false
        (WatchState.mk false JVal.null none [] [] 0 [])).config
      = JVal.obj [("a", JVal.num 1)]
    ∧ JVal.obj [("a", JVal.num 1)] ≠ JVal.null := by
  refine ⟨rfl, rfl, rfl, ?_⟩
  intro h
  exact JVal.noConfusion h

/-- C1 witness: the amended theorem at a concrete base-file parse
error — the coordinator fails and `this.config` keeps its old value. -/
theorem claim1_witness :
    ((getConfigRun true (some (.error "boom")) none none false false [] true).result
      = Except.error (ConfigError.parseError "boom"))
    ∧ ((watchCycle [] true (some (.error "boom")) none none false false
        (WatchState.mk false (JVal.num 7) none [] [] 0 [])).configFailed = true
      ∧ (∀ m, ConfigError.parseError "boom" = ConfigError.parseError m →
          (watchCycle [] true (some (.error "boom")) none none false false
            (WatchState.mk false (JVal.num 7) none [] [] 0 [])).config
            = (WatchState.mk false (JVal.num 7) none [] [] 0 []).config)
      ∧ (isLateError (Except.error (ConfigError.parseError "boom")) = true →
          ∃ cfg, resolveStage (some (.error "boom")) none none false false = .ok cfg
            ∧ (watchCycle [] true (some (.error "boom")) none none false false
                (WatchState.mk false (JVal.num 7) none [] [] 0 [])).config = cfg)) :=
  ⟨rfl, claim1_amended [] true (some (.error "boom")) none none false false
    (WatchState.mk false (JVal.num 7) none [] [] 0 [])
    (ConfigError.parseError "boom") rfl⟩

/-! Claim C2: recovery from `Failed` on a successful reload. -/

/-- C2 (amended): a watch cycle whose pipeline succeeds while the state
is `Failed` transitions to `Healthy` and requests one full host-service
reload — but the per-namespace diff loop is not skipped: it still runs
in the same cycle, diffing the new config against the previously stored
`this.config`. -/
theorem claim2_amended (plugins : List Plugin) (fileFound : Bool)
    (base env localFile : Option (Except String JVal)) (envSet isDev : Bool)
    (s : WatchState) (new : JVal)
    (hfail : s.configFailed = true)
    (hok : (getConfigRun fileFound base env localFile envSet isDev plugins true).result
      = .ok new) :
    watchCycle plugins fileFound base env localFile envSet isDev s
      = plugins.foldl (diffStep new s.config)
          (WatchState.mk false new (some new) s.svcConfig s.svcInitial
            (s.reloads + 1) s.onChangeCalls)
    ∧ (watchCycle plugins fileFound base env localFile envSet isDev s).configFailed = false
    ∧ (watchCycle plugins fileFound base env localFile envSet isDev s).reloads
      = s.reloads + 1 := by
  have harg := getConfigRun_setArg_of_ok fileFound base env localFile envSet isDev
    plugins true new hok
  have hmain : watchCycle plugins fileFound base env localFile envSet isDev s
      = plugins.foldl (diffStep new s.config)
          (WatchState.mk false new (some new) s.svcConfig s.svcInitial
            (s.reloads + 1) s.onChangeCalls) := by
    unfold watchCycle watchStep
    rw [hok, harg]
    dsimp only [applySetConfig]
    rw [hfail]
    rfl
  refine ⟨hmain, ?_, ?_⟩
  · rw [hmain, foldl_diffStep_configFailed]
  · rw [hmain, foldl_diffStep_reloads]

/-- C2 counterexample: the claim "incremental per-namespace diffing is
skipped for the recovery cycle" is false.  Recovering from `Failed`
with one plugin owning `a` (which changed from `1` to `2`), the same
cycle both requests the recovery reload and runs the diff loop: the
service maps are written and `a`'s `onChange` fires. -/
theorem claim2_counterexample :
    (getConfigRun true (some (.ok (.obj [("a", JVal.num 2)]))) none none false false
        [Plugin.mk "a" none true] true).result = .ok (.obj [("a", JVal.num 2)])
    ∧ watchCycle [Plugin.mk "a" none true] true
        (some (.ok (.obj [("a", JVal.num 2)]))) none none false false
        (WatchState.mk true (JVal.obj [("a", JVal.num 1)]) none [] [] 0 [])
      = WatchState.mk false (JVal.obj [("a", JVal.num 2)])
          (some (JVal.obj [("a", JVal.num 2)]))
          [("a", JVal.num 2)] [("a", JVal.num 2)] 1 ["a"] := by
  have h21 : nsEq (some (JVal.num 2)) (some (JVal.num 1)) = false := by
    simp [nsEq, jvalEq]
  refine ⟨rfl, ?_⟩
  unfold watchCycle
  rw [show getConfigRun true (some (.ok (.obj [("a", JVal.num 2)]))) none none
      false false [Plugin.mk "a" none true] true
      = GetConfigOutcome.mk none (Except.ok (JVal.obj [("a", JVal.num 2)])) from rfl]
  simp [watchStep, applySetConfig, diffStep, h21, setKey, hasKey, getKey, topGet]

/-- C2 witness: the amended recovery theorem at a concrete `Failed`
state with a successful pipeline. -/
theorem claim2_witness :
    ((WatchState.mk true (JVal.obj [("a", JVal.num 1)]) none [] [] 0 []).configFailed = true
      ∧ (getConfigRun true (some (.ok (.obj [("a", JVal.num 2)]))) none none false false
          [Plugin.mk "a" none true] true).result = .ok (JVal.obj [("a", JVal.num 2)]))
    ∧ (watchCycle [Plugin.mk "a" none true] true
        (some (.ok (.obj [("a", JVal.num 2)]))) none none false false
        (WatchState.mk true (JVal.obj [("a", JVal.num 1)]) none [] [] 0 [])
      = [Plugin.mk "a" none true].foldl
          (diffStep (JVal.obj [("a", JVal.num 2)])
            (WatchState.mk true (JVal.obj [("a", JVal.num 1)]) none [] [] 0 []).config)
          (WatchState.mk false (JVal.obj [("a", JVal.num 2)])
            (some (JVal.obj [("a", JVal.num 2)])) [] [] (0 + 1) [])
      ∧ (watchCycle [Plugin.mk "a" none true] true
          (some (.ok (.obj [("a", JVal.num 2)]))) none none false false
          (WatchState.mk true (JVal.obj [("a", JVal.num 1)]) none [] [] 0 [])).configFailed
        = false
      ∧ (watchCycle [Plugin.mk "a" none true] true
          (some (.ok (.obj [("a", JVal.num 2)]))) none none false false
          (WatchState.mk true (JVal.obj [("a", JVal.num 1)]) none [] [] 0 [])).reloads
        = (WatchState.mk true (JVal.obj [("a", JVal.num 1)]) none [] [] 0 []).reloads + 1) :=
  ⟨⟨rfl, rfl⟩,
    claim2_amended [Plugin.mk "a" none true] true
      (some (.ok (.obj [("a", JVal.num 2)]))) none none false false
      (WatchState.mk true (JVal.obj [("a", JVal.num 1)]) none [] [] 0 [])
      (JVal.obj [("a", JVal.num 2)]) rfl rfl⟩

/-! Claim C3: diff suppression for unchanged namespaces. -/

/-- C3: across two consecutive successful reloads (state `Healthy`,
pipeline succeeds), every namespace `N` whose new value is deep-equal
(lodash `isEqual`) to the previously accepted one is untouched: no
`onChange` call for `N` is appended this cycle, and the host service's
`config[N]` and `_initialConfig[N]` entries keep their values. -/
theorem claim3_diff_suppression (plugins : List Plugin) (fileFound : Bool)
    (base env localFile : Option (Except String JVal)) (envSet isDev : Bool)
    (s : WatchState) (new : JVal) (N : String)
    (hhealthy : s.configFailed = false)
    (hok : (getConfigRun fileFound base env localFile envSet isDev plugins true).result
      = .ok new)
    (heq : nsEq (topGet new N) (topGet s.config N) = true) :
    (∃ added, (watchCycle plugins fileFound base env localFile envSet isDev s).onChangeCalls
        = s.onChangeCalls ++ added ∧ N ∉ added)
    ∧ getKey (watchCycle plugins fileFound base env localFile envSet isDev s).svcConfig N
      = getKey s.svcConfig N
    ∧ getKey (watchCycle plugins fileFound base env localFile envSet isDev s).svcInitial N
      = getKey s.svcInitial N := by
  have harg := getConfigRun_setArg_of_ok fileFound base env localFile envSet isDev
    plugins true new hok
  have hmain : watchCycle plugins fileFound base env localFile envSet isDev s
      = plugins.foldl (diffStep new s.config)
          (WatchState.mk false new (some new) s.svcConfig s.svcInitial
            s.reloads s.onChangeCalls) := by
    unfold watchCycle watchStep
    rw [hok, harg]
    dsimp only [applySetConfig]
    rw [hhealthy]
    rfl
  rw [hmain]
  exact foldl_diffStep_untouched plugins new s.config N
    (WatchState.mk false new (some new) s.svcConfig s.svcInitial
      s.reloads s.onChangeCalls) heq

/-- C3 witness: a reload that re-reads an identical config performs no
`onChange` call and no service-map write for the unchanged namespace. -/
theorem claim3_witness :
    ((WatchState.mk false (JVal.obj [("a", JVal.num 1)]) none [] [] 0 []).configFailed
        = false
      ∧ (getConfigRun true (some (.ok (.obj [("a", JVal.num 1)]))) none none false false
          [Plugin.mk "a" none true] true).result = .ok (JVal.obj [("a", JVal.num 1)])
      ∧ nsEq (topGet (JVal.obj [("a", JVal.num 1)]) "a")
          (topGet (WatchState.mk false (JVal.obj [("a", JVal.num 1)]) none [] [] 0 []).config "a")
        = true)
    ∧ ((∃ added, (watchCycle [Plugin.mk "a" none true] true
          (some (.ok (.obj [("a", JVal.num 1)]))) none none false false
          (WatchState.mk false (JVal.obj [("a", JVal.num 1)]) none [] [] 0 [])).onChangeCalls
          = (WatchState.mk false (JVal.obj [("a", JVal.num 1)]) none [] [] 0 []).onChangeCalls
            ++ added ∧ "a" ∉ added)
      ∧ getKey (watchCycle [Plugin.mk "a" none true] true
          (some (.ok (.obj [("a", JVal.num 1)]))) none none false false
          (WatchState.mk false (JVal.obj [("a", JVal.num 1)]) none [] [] 0 [])).svcConfig "a"
        = getKey (WatchState.mk false (JVal.obj [("a", JVal.num 1)]) none [] [] 0 []).svcConfig "a"
      ∧ getKey (watchCycle [Plugin.mk "a" none true] true
          (some (.ok (.obj [("a", JVal.num 1)]))) none none false false
          (WatchState.mk false (JVal.obj [("a", JVal.num 1)]) none [] [] 0 [])).svcInitial "a"
        = getKey (WatchState.mk false (JVal.obj [("a", JVal.num 1)]) none [] [] 0 []).svcInitial "a") :=
  ⟨⟨rfl, rfl, by simp [nsEq, topGet, getKey, jvalEq]⟩,
    claim3_diff_suppression [Plugin.mk "a" none true] true
      (some (.ok (.obj [("a", JVal.num 1)]))) none none false false
      (WatchState.mk false (JVal.obj [("a", JVal.num 1)]) none [] [] 0 [])
      (JVal.obj [("a", JVal.num 1)]) "a" rfl rfl
      (by simp [nsEq, topGet, getKey, jvalEq])⟩
